import Mathlib

/-!
# DataLoadZcm: the ZCM log loader of PlotJuggler

A shallow embedding of `plotjuggler_plugins/DataLoadZcm/dataload_zcm.cpp`:
the record loop of `processInputLog` (progress percent, the function-static
`lastPrintPercent`, cancellation), the channel discovery of `launchDialog`,
and the ingestion of `readDataFromFile` (`processData`, `processEvent`).

Conventions of the embedding.
* Captured-by-reference state of a C++ lambda is passed explicitly.
* The function-static `lastPrintPercent` (0 in a fresh process) is a state
  component that is handed from one call of `processInputLog` to the next.
* `double` values are exact rationals; IEEE rounding is not modelled.  The
  percent `int percent = 100.0 * offset / logSize` is the truncated quotient.
* A file is read forward: `ftello` before a read is the sum of the bytes the
  earlier reads consumed.
-/

namespace DataLoadZcm

/-! ## Log records and the log file -/

/-- A record of the log, `zcm::LogEvent`: channel, timestamp in microseconds,
payload bytes. -/
structure LogEvent where
  channel : String
  timestamp : Int
  data : List Nat
deriving DecidableEq

/-- A framed record as it lies in the file: the event `readNextEvent` returns
and the number of bytes by which that read advances the file position. -/
structure Frame where
  evt : LogEvent
  consumed : Nat
deriving DecidableEq

/-- An opened `zcm::LogFile`: `size` is what `ftello` reports after the seek to
`SEEK_END`; `frames` are the records `readNextEvent` yields before it returns
`nullptr`. -/
structure LogFile where
  size : Nat
  frames : List Frame
deriving DecidableEq

/-- The file position after every frame of the list has been read, starting
from `offset`. -/
def endOffset (offset : Nat) (frames : List Frame) : Nat :=
  offset + (frames.map Frame.consumed).sum

/-- The events of a list of frames, in file order. -/
def events (frames : List Frame) : List LogEvent :=
  frames.map Frame.evt

/-! ## The progress observer -/

/-- The progress dialog as the loop sees it.  `wasCanceled shown n` is the
answer of `progress_dialog.wasCanceled()` when it is asked right after the
`setValue` call that completed the history `shown` of notified values, at a
moment when `n` records have been handed to `processEvent`. -/
structure ProgressDialog where
  wasCanceled : List Nat → Nat → Bool

/-- The state of one run of the `processLog` lambda.
* `lastPrintPercent`: the function-static of that name;
* `shown`: the arguments of the `setValue` calls made so far, in call order;
* `passed`: the events handed to `processEvent` so far, in call order;
* `interrupted`: the local flag of that name;
* `user`: the state the `processEvent` closure captured by reference. -/
structure ScanState (σ : Type) where
  lastPrintPercent : Nat
  shown : List Nat
  passed : List LogEvent
  interrupted : Bool
  user : σ

/-- Line 110: `int percent = 100.0 * offset / (logSize == 0 ? 1 : logSize)`. -/
def percentOf (logSize offset : Nat) : Nat :=
  100 * offset / (if logSize = 0 then 1 else logSize)

/-- Lines 108 to 120: compute the percent at the current offset and, when it
differs from `lastPrintPercent`, record it, notify the dialog and ask it for
cancellation; on a positive answer `interrupted` is set, and the caller takes
the `break` of line 118 on that flag. -/
def progressStep {σ : Type} (dlg : ProgressDialog) (logSize offset : Nat)
    (st : ScanState σ) : ScanState σ :=
  let percent := percentOf logSize offset
  if percent ≠ st.lastPrintPercent then
    let shown := st.shown ++ [percent]
    { st with
      lastPrintPercent := percent
      shown := shown
      interrupted := st.interrupted || dlg.wasCanceled shown st.passed.length }
  else st

/-- The `while (1)` loop of the `processLog` lambda, lines 107 to 126.  The
list is what is still unread, `offset` the current file position. -/
def processLog {σ : Type} (dlg : ProgressDialog) (logSize : Nat)
    (processEvent : LogEvent → σ → σ) :
    List Frame → Nat → ScanState σ → ScanState σ
  | [], offset, st => progressStep dlg logSize offset st
  | f :: rest, offset, st =>
    let st1 := progressStep dlg logSize offset st
    if st1.interrupted then st1
    else
      processLog dlg logSize processEvent rest (offset + f.consumed)
        { st1 with
          passed := st1.passed ++ [f.evt]
          user := processEvent f.evt st1.user }

/-- The state in which `processLog` enters its loop: nothing shown, nothing
passed, `interrupted = false` (line 105). -/
def initState {σ : Type} (lastPrintPercent : Nat) (user : σ) : ScanState σ :=
  { lastPrintPercent := lastPrintPercent
    shown := []
    passed := []
    interrupted := false
    user := user }

/-- The function `processInputLog`, lines 79 to 139.  `inlog` is the outcome of
opening the path (`none` when `inlog.good()` is false).  The result is the
returned `int` and the final state of the run. -/
def processInputLog {σ : Type} (inlog : Option LogFile) (dlg : ProgressDialog)
    (processEvent : LogEvent → σ → σ) (lastPrintPercent : Nat) (user : σ) :
    Nat × ScanState σ :=
  match inlog with
  | none => (1, initState lastPrintPercent user)
  | some log =>
    (0, processLog dlg log.size processEvent log.frames 0
          (initState lastPrintPercent user))

/-! ## Decoded fields -/

/-- What the decoder hands to the `processData` callback besides the name: the
field type tag together with the object `data` points to.  The nine cases are
the nine leaf cases of the `switch` of lines 212 to 223; line 222 asserts that
`ZCM_FIELD_USER_TYPE` is never reported, so it has no case here. -/
inductive FieldData
  | int8 (v : Int)
  | int16 (v : Int)
  | int32 (v : Int)
  | int64 (v : Int)
  | byte (v : Nat)
  | float (v : ℚ)
  | double (v : ℚ)
  | boolean (b : Bool)
  | string (s : String)
deriving DecidableEq

/-- One invocation of the callback: flattened name and typed data. -/
structure Field where
  name : String
  data : FieldData
deriving DecidableEq

/-- Modelled from the spec: the layout of a message with the values read from
the payload (FieldLayout of section 3 with its scalars decoded as section 4.3
describes): a scalar leaf, a nested struct with named children in order, or an
array of elements. -/
inductive Decoded
  | scalar (d : FieldData)
  | nested (children : List (String × Decoded))
  | array (elems : List Decoded)

/-- Modelled from the spec: the schema registry (`zcm::TypeDb`, section 4.2).
`good` is `types.good()`; `resolve` maps a payload, through the fingerprint in
its first bytes, to the ordered top-level fields of its message with their
values, or to `none` when no loaded schema matches. -/
structure TypeDb where
  good : Bool
  resolve : List Nat → Option (List (String × Decoded))

/-- The decoder as `readDataFromFile` uses it: called with the channel, the
payload, the separator and the registry, it invokes the callback once per
reported field; the result is the list of these invocations in order. -/
abbrev Introspect := String → List Nat → String → TypeDb → List Field

/-! ## The sink -/

/-- Modelled from the spec: a map from series name to its append-only samples
(section 3, TimeSeries), as an association list in order of creation. -/
abbrev SeriesMap (V : Type) := List (String × List (ℚ × V))

/-- The sink `PlotDataMapRef`: the numeric and the string series. -/
structure PlotDataMapRef where
  numeric : SeriesMap ℚ
  strings : SeriesMap String
deriving DecidableEq

/-- The names that are keys of a series map. -/
def keys {V : Type} (m : SeriesMap V) : List String :=
  m.map Prod.fst

/-- Modelled from the spec: `hasNumericSeries` / `hasStringSeries` of the sink
interface (section 6), the test `find(name) != end()`. -/
def hasSeries {V : Type} (m : SeriesMap V) (name : String) : Bool :=
  decide (name ∈ keys m)

/-- Modelled from the spec: `addNumericSeries` / `addStringSeries` of the sink
interface: a new series without samples under `name`. -/
def addSeries {V : Type} (m : SeriesMap V) (name : String) : SeriesMap V :=
  m ++ [(name, [])]

/-- Modelled from the spec: `append(handle, timestamp, value)` of the sink
interface, `pushBack` on the series found under `name`: the sample goes to the
end of that series. -/
def pushBack {V : Type} : SeriesMap V → String → ℚ × V → SeriesMap V
  | [], _, _ => []
  | (k, samples) :: rest, name, s =>
    if k = name then (k, samples ++ [s]) :: rest
    else (k, samples) :: pushBack rest name s

/-- Lines 239 to 241 (and 244 to 246): find the series, add it when it is
absent, push the sample. -/
def ingest {V : Type} (m : SeriesMap V) (name : String) (s : ℚ × V) : SeriesMap V :=
  pushBack (if hasSeries m name then m else addSeries m name) name s

/-! ## Ingestion: `processData` and `processEvent` -/

/-- The state the two lambdas of `readDataFromFile` capture by reference: the
vectors `numerics` and `strings` of lines 208 and 209, and the sink. -/
structure IngestState where
  numerics : List (String × ℚ)
  strings : List (String × String)
  plot_data : PlotDataMapRef
deriving DecidableEq

/-- The template `toDouble<T>` of lines 182 to 185 at an integer type. -/
def toDoubleInt (v : Int) : ℚ := (v : ℚ)

/-- The template `toDouble<uint8_t>`. -/
def toDoubleByte (v : Nat) : ℚ := (v : ℚ)

/-- The template `toDouble<bool>`. -/
def toDoubleBool (b : Bool) : ℚ := if b then 1 else 0

/-- The lambda `processData`, lines 211 to 224. -/
def processData (st : IngestState) (name : String) : FieldData → IngestState
  | .int8 v => { st with numerics := st.numerics ++ [(name, toDoubleInt v)] }
  | .int16 v => { st with numerics := st.numerics ++ [(name, toDoubleInt v)] }
  | .int32 v => { st with numerics := st.numerics ++ [(name, toDoubleInt v)] }
  | .int64 v => { st with numerics := st.numerics ++ [(name, toDoubleInt v)] }
  | .byte v => { st with numerics := st.numerics ++ [(name, toDoubleByte v)] }
  | .float v => { st with numerics := st.numerics ++ [(name, v)] }
  | .double v => { st with numerics := st.numerics ++ [(name, v)] }
  | .boolean b => { st with numerics := st.numerics ++ [(name, toDoubleBool b)] }
  | .string s => { st with strings := st.strings ++ [(name, s)] }

/-- The expression `(double)evt->timestamp / 1e6` of lines 241 and 246. -/
def seconds (evt : LogEvent) : ℚ :=
  (evt.timestamp : ℚ) / 1000000

/-- The lambda `processEvent` of `readDataFromFile`, lines 226 to 251. -/
def processEvent (introspect : Introspect) (channels : List String) (types : TypeDb)
    (evt : LogEvent) (st : IngestState) : IngestState :=
  if evt.channel ∉ channels then st
  else
    let st1 := (introspect evt.channel evt.data "/" types).foldl
      (fun s f => processData s f.name f.data) st
    let numeric := st1.numerics.foldl
      (fun m n => ingest m n.1 (seconds evt, n.2)) st1.plot_data.numeric
    let strings := st1.strings.foldl
      (fun m x => ingest m x.1 (seconds evt, x.2)) st1.plot_data.strings
    { numerics := []
      strings := []
      plot_data := { numeric := numeric, strings := strings } }

/-! ## The selection dialog and `readDataFromFile` -/

/-- Insertion into the `unordered_set<string>` of channels: a set kept as a
list without repetition. -/
def insertChannel (channels : List String) (c : String) : List String :=
  if c ∈ channels then channels else channels ++ [c]

/-- What lies outside the plugin.
* `openLog`: the outcome of `zcm::LogFile inlog(path, "r")`, `none` when
  `inlog.good()` is false;
* `types`: the outcome of `zcm::TypeDb types(type_path)`;
* `introspect`: the decoder `zcm::Introspection::processEncodedType`;
* `discoveryProgress`, `scanProgress`: the progress dialogs of the pre-scan of
  `launchDialog` and of the scan of `readDataFromFile`;
* `exec`: the selection dialog shown with the given items: `none` when it is
  rejected, otherwise the texts of the selected rows. -/
structure World where
  openLog : String → Option LogFile
  types : TypeDb
  introspect : Introspect
  discoveryProgress : ProgressDialog
  scanProgress : ProgressDialog
  exec : List String → Option (List String)

/-- The outcome of `launchDialog`: the returned `bool`, the set `channels` it
leaves in its reference parameter, the items it put into the list widget, the
function-static after the call, whether the pre-scan was interrupted and the
records the pre-scan handed to its `processEvent`. -/
structure DialogResult where
  ok : Bool
  channels : List String
  items : List String
  lastPrintPercent : Nat
  interrupted : Bool
  passed : List LogEvent

/-- The function `launchDialog`, lines 141 to 180.  The selected rows are rows
of the list widget, so of the texts the dialog returns only those among the
items count. -/
def launchDialog (w : World) (filepath : String) (lastPrintPercent : Nat) : DialogResult :=
  let run := processInputLog (w.openLog filepath) w.discoveryProgress
    (fun evt channels => insertChannel channels evt.channel) lastPrintPercent []
  if run.1 ≠ 0 then
    { ok := false, channels := run.2.user, items := [],
      lastPrintPercent := run.2.lastPrintPercent, interrupted := run.2.interrupted,
      passed := run.2.passed }
  else
    let items := run.2.user
    match w.exec items with
    | none =>
      { ok := false, channels := [], items := items,
        lastPrintPercent := run.2.lastPrintPercent, interrupted := run.2.interrupted,
        passed := run.2.passed }
    | some picked =>
      let indexes := picked.filter (fun c => decide (c ∈ items))
      { ok := !indexes.isEmpty
        channels := indexes.foldl insertChannel []
        items := items
        lastPrintPercent := run.2.lastPrintPercent
        interrupted := run.2.interrupted
        passed := run.2.passed }

/-- The argument `FileLoadInfo* info` as far as the function reads it: the
file name and whether `plugin_config` has child nodes. -/
structure FileLoadInfo where
  filename : String
  hasChildNodes : Bool

/-- The outcome of `readDataFromFile`: the returned `bool`, the sink, the
function-static after the call, the selection `channels` with which the scan
was reached (`none` when the function returned before it), and the final state
of the scan run (`none` when `processInputLog` was not called for the scan). -/
structure LoadResult where
  ok : Bool
  plot_data : PlotDataMapRef
  lastPrintPercent : Nat
  channels : Option (List String)
  scan : Option (ScanState IngestState)

/-- The function `xmlLoadState`, lines 264 to 267: it returns `true` and
restores nothing, so `channels` stays as it is. -/
def xmlLoadState (channels : List String) : Bool × List String :=
  (true, channels)

/-- Lines 190 to 198 of `readDataFromFile`: the local set `channels` starts
empty; with a saved configuration `xmlLoadState` is called, otherwise
`launchDialog`. -/
def selectChannels (w : World) (info : FileLoadInfo) (lastPrintPercent : Nat) :
    DialogResult :=
  if info.hasChildNodes then
    { ok := true, channels := (xmlLoadState []).2, items := [],
      lastPrintPercent := lastPrintPercent, interrupted := false, passed := [] }
  else launchDialog w info.filename lastPrintPercent

/-- The function `readDataFromFile`, lines 187 to 257. -/
def readDataFromFile (w : World) (info : FileLoadInfo) (lastPrintPercent : Nat)
    (plot_data : PlotDataMapRef) : LoadResult :=
  let sel : DialogResult := selectChannels w info lastPrintPercent
  if !sel.ok then
    { ok := false, plot_data := plot_data, lastPrintPercent := sel.lastPrintPercent,
      channels := none, scan := none }
  else if !w.types.good then
    { ok := false, plot_data := plot_data, lastPrintPercent := sel.lastPrintPercent,
      channels := some sel.channels, scan := none }
  else
    let run := processInputLog (w.openLog info.filename) w.scanProgress
      (processEvent w.introspect sel.channels w.types) sel.lastPrintPercent
      { numerics := [], strings := [], plot_data := plot_data }
    { ok := decide (run.1 = 0)
      plot_data := run.2.user.plot_data
      lastPrintPercent := run.2.lastPrintPercent
      channels := some sel.channels
      scan := if run.1 = 0 then some run.2 else none }

/-! ## The decoder as the specification describes it -/

mutual
/-- Modelled from the spec: the depth-first traversal of section 4.3 at one
node, with the accumulated path; a scalar is reported under its path segments
joined with the separator. -/
def flattenNode (separator : String) : List String → Decoded → List Field
  | path, .scalar d => [{ name := String.intercalate separator path, data := d }]
  | path, .nested children => flattenFields separator path children
  | path, .array elems => flattenElems separator path 0 elems
/-- Modelled from the spec: the traversal over the ordered children of a
struct; each child extends the path by its field name. -/
def flattenFields (separator : String) :
    List String → List (String × Decoded) → List Field
  | _, [] => []
  | path, (n, c) :: rest =>
    flattenNode separator (path ++ [n]) c ++ flattenFields separator path rest
/-- Modelled from the spec: the traversal over the elements of an array; each
element extends the path by an index segment. -/
def flattenElems (separator : String) :
    List String → Nat → List Decoded → List Field
  | _, _, [] => []
  | path, i, c :: rest =>
    flattenNode separator (path ++ [toString i]) c ++
      flattenElems separator path (i + 1) rest
end

/-- Modelled from the spec: the decoder `processEncodedType` (SchemaRegistry
and FieldDecoder of sections 4.2 and 4.3).  The payload is resolved through
the registry; an unknown fingerprint reports no field; otherwise the fields
are reported depth first under their flattened names.  The first argument (in
the source the record's channel) takes no part in the names the specification
describes. -/
def processEncodedType : Introspect :=
  fun _ data separator types =>
    match types.resolve data with
    | none => []
    | some fields => flattenFields separator [] fields

mutual
/-- The leaves of a node with their paths of segments, depth first. -/
def leavesNode : Decoded → List (List String × FieldData)
  | .scalar d => [([], d)]
  | .nested children => leavesFields children
  | .array elems => leavesElems 0 elems
/-- The leaves below the children of a struct; the path of each starts with
the name of the child it lies in. -/
def leavesFields : List (String × Decoded) → List (List String × FieldData)
  | [] => []
  | (n, c) :: rest => (leavesNode c).map (fun l => (n :: l.1, l.2)) ++ leavesFields rest
/-- The leaves below the elements of an array; the path of each starts with
the index of the element it lies in. -/
def leavesElems : Nat → List Decoded → List (List String × FieldData)
  | _, [] => []
  | i, c :: rest =>
    (leavesNode c).map (fun l => (toString i :: l.1, l.2)) ++ leavesElems (i + 1) rest
end

/-! ## The ingestion as the specification describes it -/

/-- The typed value of a decoded field in the words of section 4.3: integer
types widen to a float64, booleans become 0.0 or 1.0, strings are copied. -/
def specValue : FieldData → ℚ ⊕ String
  | .int8 v => .inl v
  | .int16 v => .inl v
  | .int32 v => .inl v
  | .int64 v => .inl v
  | .byte v => .inl v
  | .float v => .inl v
  | .double v => .inl v
  | .boolean b => .inl (if b then 1 else 0)
  | .string s => .inr s

/-- One sample at the end of the numeric series `name` for a numeric field, of
the string series `name` for a string field, the series being created when it
is absent. -/
def specAppend (t : ℚ) (pd : PlotDataMapRef) (f : Field) : PlotDataMapRef :=
  match specValue f.data with
  | .inl v => { pd with numeric := ingest pd.numeric f.name (t, v) }
  | .inr x => { pd with strings := ingest pd.strings f.name (t, x) }

/-- What one record appends: for a record whose channel is selected, one
sample per reported field in decoder order, at the record timestamp in
microseconds divided by 10^6; for any other record nothing. -/
def specRecord (introspect : Introspect) (channels : List String) (types : TypeDb)
    (pd : PlotDataMapRef) (evt : LogEvent) : PlotDataMapRef :=
  if evt.channel ∈ channels then
    (introspect evt.channel evt.data "/" types).foldl
      (specAppend ((evt.timestamp : ℚ) / 10 ^ 6)) pd
  else pd

/-- What a list of records appends, record after record in the given order. -/
def specScan (introspect : Introspect) (channels : List String) (types : TypeDb)
    (evts : List LogEvent) (pd : PlotDataMapRef) : PlotDataMapRef :=
  evts.foldl (specRecord introspect channels types) pd

/-- The sink as it will be once the pending vectors `numerics` and `strings`
have been pushed with timestamp `t` (the two loops of lines 238 to 247). -/
def flush (t : ℚ) (st : IngestState) : PlotDataMapRef :=
  { numeric := st.numerics.foldl (fun m n => ingest m n.1 (t, n.2)) st.plot_data.numeric
    strings := st.strings.foldl (fun m x => ingest m x.1 (t, x.2)) st.plot_data.strings }

/-! ## Example inputs -/

/-- A progress dialog on which cancel is never pressed. -/
def neverCanceled : ProgressDialog :=
  { wasCanceled := fun _ _ => false }

/-- A sink without series. -/
def emptySink : PlotDataMapRef :=
  { numeric := [], strings := [] }

/-- A registry that loaded and knows no type. -/
def emptyTypes : TypeDb :=
  { good := true, resolve := fun _ => none }

/-- Two records on channel "IMU" at 1_000_000 and 2_000_000 microseconds, of 50
bytes each, in a file of 100 bytes. -/
def imuLog : LogFile :=
  { size := 100
    frames :=
      [ { evt := { channel := "IMU", timestamp := 1000000, data := [1] }, consumed := 50 },
        { evt := { channel := "IMU", timestamp := 2000000, data := [1] }, consumed := 50 } ] }

/-- The file `imuLog`, a decoder that reports the float64 field `accel = 9.8`
for every record, dialogs that are never cancelled and a user who selects
every offered channel. -/
def imuWorld : World :=
  { openLog := fun _ => some imuLog
    types := emptyTypes
    introspect := fun _ _ _ _ => [{ name := "accel", data := .double 9.8 }]
    discoveryProgress := neverCanceled
    scanProgress := neverCanceled
    exec := fun items => some items }

/-- The call argument used with the example worlds: no saved configuration. -/
def imuInfo : FileLoadInfo :=
  { filename := "imu.zcmlog", hasChildNodes := false }

/-- The example world with a schema bundle that failed to load. -/
def badTypesWorld : World :=
  { imuWorld with types := { good := false, resolve := fun _ => none } }

/-- The example world with a log file that cannot be opened. -/
def missingFileWorld : World :=
  { imuWorld with openLog := fun _ => none }

/-- Two records on channel "IMU": the payload of the first matches no schema,
the payload of the second does. -/
def mixedLog : LogFile :=
  { size := 100
    frames :=
      [ { evt := { channel := "IMU", timestamp := 1000000, data := [0] }, consumed := 50 },
        { evt := { channel := "IMU", timestamp := 2000000, data := [1] }, consumed := 50 } ] }

/-- The file `mixedLog` and a decoder that reports `accel = 9.8` for the
payload `[1]` and no field for any other payload. -/
def mixedWorld : World :=
  { imuWorld with
    openLog := fun _ => some mixedLog
    introspect := fun _ data _ _ =>
      if data = [1] then [{ name := "accel", data := .double 9.8 }] else [] }

/-- A progress dialog on which cancel has been pressed once `n` records have
been processed: from then on every poll answers true. -/
def cancelFrom (n : Nat) : ProgressDialog :=
  { wasCanceled := fun _ k => decide (n ≤ k) }

/-- Four records of 25 bytes in a file of 100 bytes: two on channel "A", then
two on channel "B". -/
def abLog : LogFile :=
  { size := 100
    frames :=
      [ { evt := { channel := "A", timestamp := 1000000, data := [1] }, consumed := 25 },
        { evt := { channel := "A", timestamp := 2000000, data := [1] }, consumed := 25 },
        { evt := { channel := "B", timestamp := 3000000, data := [1] }, consumed := 25 },
        { evt := { channel := "B", timestamp := 4000000, data := [1] }, consumed := 25 } ] }

/-- The file `abLog` with a pre-scan on which cancel is pressed once two
records have been processed. -/
def cancelledDiscoveryWorld : World :=
  { imuWorld with
    openLog := fun _ => some abLog
    discoveryProgress := cancelFrom 2 }

/-- The file `abLog` with dialogs that are never cancelled. -/
def abWorld : World :=
  { imuWorld with openLog := fun _ => some abLog }

/-- A file of 10000 bytes with records of 100, 40, 40, 4820 and 5000 bytes:
the percent is 1 after the first record and stays 1 until the fourth record
has been read, when it becomes 50. -/
def slowTickLog : LogFile :=
  { size := 10000
    frames :=
      [ { evt := { channel := "A", timestamp := 1000000, data := [1] }, consumed := 100 },
        { evt := { channel := "A", timestamp := 2000000, data := [1] }, consumed := 40 },
        { evt := { channel := "A", timestamp := 3000000, data := [1] }, consumed := 40 },
        { evt := { channel := "A", timestamp := 4000000, data := [1] }, consumed := 4820 },
        { evt := { channel := "A", timestamp := 5000000, data := [1] }, consumed := 5000 } ] }

/-- A file of 10000 bytes of which the reader yields records of 100, 40 and 40
bytes (the rest is a partial frame, reported as end of file). -/
def truncatedLog : LogFile :=
  { size := 10000
    frames :=
      [ { evt := { channel := "A", timestamp := 1000000, data := [1] }, consumed := 100 },
        { evt := { channel := "A", timestamp := 2000000, data := [1] }, consumed := 40 },
        { evt := { channel := "A", timestamp := 3000000, data := [1] }, consumed := 40 } ] }

/-- The percent computed in loop iteration `j` of a run over `log`, counted
from 0: the one before record `j + 1` is read. -/
def percentAt (log : LogFile) (j : Nat) : Nat :=
  percentOf log.size (endOffset 0 (log.frames.take j))

/-- The value of `lastPrintPercent` against which the percent of iteration `j`
is compared: the start value in iteration 0, afterwards the percent of the
iteration before. -/
def lastAt (last : Nat) (log : LogFile) (j : Nat) : Nat :=
  if j = 0 then last else percentAt log (j - 1)

/-- Two records on channel "A" with payloads of two different types. -/
def kindLog : LogFile :=
  { size := 100
    frames :=
      [ { evt := { channel := "A", timestamp := 1000000, data := [1] }, consumed := 50 },
        { evt := { channel := "A", timestamp := 2000000, data := [2] }, consumed := 50 } ] }

/-- The file `kindLog` and a decoder that reports the float64 field `x = 1` for
the payload `[1]` and the string field `x = "a"` for any other payload. -/
def kindWorld : World :=
  { imuWorld with
    openLog := fun _ => some kindLog
    introspect := fun _ data _ _ =>
      if data = [1] then [{ name := "x", data := .double 1 }]
      else [{ name := "x", data := .string "a" }] }

/-- The fields the decoder reports for the selected ones of the given records,
record after record. -/
def selectedFields (introspect : Introspect) (channels : List String) (types : TypeDb) :
    List LogEvent → List Field
  | [] => []
  | e :: rest =>
    (if e.channel ∈ channels then introspect e.channel e.data "/" types else []) ++
      selectedFields introspect channels types rest

/-- The names of the fields of numeric kind among the given fields. -/
def numericNames (fields : List Field) : List String :=
  (fields.filter (fun f => (specValue f.data).isLeft)).map Field.name

/-- The names of the fields of string kind among the given fields. -/
def stringNames (fields : List Field) : List String :=
  (fields.filter (fun f => (specValue f.data).isRight)).map Field.name

/-- The example world with a scan on which cancel is pressed once the first
record has been processed. -/
def cancelledScanWorld : World :=
  { imuWorld with scanProgress := cancelFrom 1 }

/-- The message `{pose: {x: float64, y: float64}}` with the values `a`, `b`. -/
def poseMessage (a b : ℚ) : List (String × Decoded) :=
  [("pose", .nested [("x", .scalar (.double a)), ("y", .scalar (.double b))])]

/-- A registry that resolves the payload `[7]` to the pose message with the
values 3 and 4 and knows no other payload. -/
def poseTypes : TypeDb :=
  { good := true
    resolve := fun data => if data = [7] then some (poseMessage 3 4) else none }

/-- A record on channel "A" with the payload `[7]`. -/
def poseEvent : LogEvent :=
  { channel := "A", timestamp := 1000000, data := [7] }

/-- The field reported for a leaf: its path joined with the separator, and its
data. -/
def leafField (separator : String) (path : List String) (l : List String × FieldData) :
    Field :=
  { name := String.intercalate separator (path ++ l.1), data := l.2 }

/-! ## Facts about the percent and the progress step -/

theorem percentOf_mono (logSize : Nat) {a b : Nat} (h : a ≤ b) :
    percentOf logSize a ≤ percentOf logSize b := by
  unfold percentOf
  exact Nat.div_le_div_right (Nat.mul_le_mul_left 100 h)

theorem percentOf_le_hundred {logSize offset : Nat} (h : offset ≤ logSize) :
    percentOf logSize offset ≤ 100 := by
  unfold percentOf
  by_cases hs : logSize = 0
  · subst hs
    have : offset = 0 := by omega
    subst this
    simp
  · rw [if_neg hs]
    have hpos : 0 < logSize := Nat.pos_of_ne_zero hs
    calc 100 * offset / logSize ≤ 100 * logSize / logSize :=
          Nat.div_le_div_right (Nat.mul_le_mul_left 100 h)
      _ = 100 := Nat.mul_div_cancel 100 hpos

theorem percentOf_zero (logSize : Nat) : percentOf logSize 0 = 0 := by
  simp [percentOf]

theorem progressStep_lastPrintPercent {σ : Type} (dlg : ProgressDialog)
    (logSize offset : Nat) (st : ScanState σ) :
    (progressStep dlg logSize offset st).lastPrintPercent = percentOf logSize offset := by
  unfold progressStep
  by_cases h : percentOf logSize offset = st.lastPrintPercent
  · simp [h]
  · simp [h]

theorem progressStep_passed {σ : Type} (dlg : ProgressDialog)
    (logSize offset : Nat) (st : ScanState σ) :
    (progressStep dlg logSize offset st).passed = st.passed := by
  unfold progressStep
  by_cases h : percentOf logSize offset = st.lastPrintPercent <;> simp [h]

theorem progressStep_user {σ : Type} (dlg : ProgressDialog)
    (logSize offset : Nat) (st : ScanState σ) :
    (progressStep dlg logSize offset st).user = st.user := by
  unfold progressStep
  by_cases h : percentOf logSize offset = st.lastPrintPercent <;> simp [h]

/-- What one progress step adds to the history of notified values: nothing, or
the current percent, and then only when it differs from `lastPrintPercent`. -/
theorem progressStep_shown {σ : Type} (dlg : ProgressDialog)
    (logSize offset : Nat) (st : ScanState σ) :
    ((progressStep dlg logSize offset st).shown = st.shown ∧
        percentOf logSize offset = st.lastPrintPercent) ∨
      ((progressStep dlg logSize offset st).shown = st.shown ++ [percentOf logSize offset] ∧
        percentOf logSize offset ≠ st.lastPrintPercent) := by
  unfold progressStep
  by_cases h : percentOf logSize offset = st.lastPrintPercent
  · left; simp [h]
  · right; simp [h]

/-- The values a run of the loop notifies, from any state: they are strictly
increasing, they lie between the percent at the current offset and the percent
at the end of the unread frames, and the percent at the current offset is
among them only when it differs from `lastPrintPercent`. -/
theorem processLog_shown {σ : Type} (dlg : ProgressDialog) (logSize : Nat)
    (processEvent : LogEvent → σ → σ) :
    ∀ (frames : List Frame) (offset : Nat) (st : ScanState σ),
      ∃ new : List Nat,
        (processLog dlg logSize processEvent frames offset st).shown = st.shown ++ new ∧
        new.Pairwise (· < ·) ∧
        ∀ p ∈ new, percentOf logSize offset ≤ p ∧
          p ≤ percentOf logSize (endOffset offset frames) ∧
          (p = percentOf logSize offset → p ≠ st.lastPrintPercent) := by
  intro frames
  induction frames with
  | nil =>
    intro offset st
    simp only [processLog]
    rcases progressStep_shown dlg logSize offset st with ⟨hs, _⟩ | ⟨hs, hne⟩
    · exact ⟨[], by simp [hs], List.Pairwise.nil, by simp⟩
    · refine ⟨[percentOf logSize offset], hs, List.pairwise_singleton _ _, ?_⟩
      intro p hp
      simp only [List.mem_singleton] at hp
      subst hp
      refine ⟨le_refl _, ?_, fun _ => hne⟩
      simp [endOffset]
  | cons f rest ih =>
    intro offset st
    have hmono : percentOf logSize offset ≤ percentOf logSize (offset + f.consumed) :=
      percentOf_mono logSize (Nat.le_add_right _ _)
    have hend : endOffset offset (f :: rest) = endOffset (offset + f.consumed) rest := by
      simp [endOffset, Nat.add_assoc]
    have hle : percentOf logSize offset ≤ percentOf logSize (endOffset offset (f :: rest)) :=
      percentOf_mono logSize (by simp [endOffset])
    simp only [processLog]
    by_cases hint : (progressStep dlg logSize offset st).interrupted = true
    · rw [if_pos hint]
      rcases progressStep_shown dlg logSize offset st with ⟨hs, _⟩ | ⟨hs, hne⟩
      · exact ⟨[], by simp [hs], List.Pairwise.nil, by simp⟩
      · refine ⟨[percentOf logSize offset], hs, List.pairwise_singleton _ _, ?_⟩
        intro p hp
        simp only [List.mem_singleton] at hp
        subst hp
        exact ⟨le_refl _, hle, fun _ => hne⟩
    · rw [if_neg hint]
      obtain ⟨new2, h2, hpw, hall⟩ := ih (offset + f.consumed)
        { progressStep dlg logSize offset st with
          passed := (progressStep dlg logSize offset st).passed ++ [f.evt]
          user := processEvent f.evt (progressStep dlg logSize offset st).user }
      simp only [progressStep_lastPrintPercent] at hall
      rw [h2]
      rcases progressStep_shown dlg logSize offset st with ⟨hs, _⟩ | ⟨hs, hne⟩
      · refine ⟨new2, by simp [hs], hpw, ?_⟩
        intro p hp
        obtain ⟨h1, h3, h4⟩ := hall p hp
        rw [hend]
        refine ⟨le_trans hmono h1, h3, ?_⟩
        intro hpe
        exfalso
        have := h4 (by omega)
        omega
      · refine ⟨percentOf logSize offset :: new2, by simp [hs], ?_, ?_⟩
        · rw [List.pairwise_cons]
          refine ⟨?_, hpw⟩
          intro b hb
          obtain ⟨h1, _, h4⟩ := hall b hb
          by_cases hb2 : b = percentOf logSize (offset + f.consumed)
          · have := h4 hb2
            omega
          · omega
        · intro p hp
          rw [List.mem_cons] at hp
          rcases hp with hp | hp
          · subst hp
            exact ⟨le_refl _, hle, fun _ => hne⟩
          · obtain ⟨h1, h3, h4⟩ := hall p hp
            rw [hend]
            refine ⟨le_trans hmono h1, h3, ?_⟩
            intro hpe
            exfalso
            have := h4 (by omega)
            omega

/-! ## The loop hands a prefix of the log to `processEvent` -/

/-- A run of the loop hands the events of a prefix of the unread frames to
`processEvent`, in file order, and folds them into the captured state; when it
ends without interruption the prefix is the whole list. -/
theorem processLog_prefix {σ : Type} (dlg : ProgressDialog) (logSize : Nat)
    (processEvent : LogEvent → σ → σ) :
    ∀ (frames : List Frame) (offset : Nat) (st : ScanState σ),
      ∃ k, k ≤ frames.length ∧
        (processLog dlg logSize processEvent frames offset st).passed =
          st.passed ++ events (frames.take k) ∧
        (processLog dlg logSize processEvent frames offset st).user =
          (events (frames.take k)).foldl (fun u e => processEvent e u) st.user ∧
        ((processLog dlg logSize processEvent frames offset st).interrupted = false →
          k = frames.length) := by
  intro frames
  induction frames with
  | nil =>
    intro offset st
    refine ⟨0, le_refl _, ?_, ?_, fun _ => rfl⟩
    · simp [processLog, progressStep_passed, events]
    · simp [processLog, progressStep_user, events]
  | cons f rest ih =>
    intro offset st
    simp only [processLog]
    by_cases hint : (progressStep dlg logSize offset st).interrupted = true
    · rw [if_pos hint]
      refine ⟨0, Nat.zero_le _, ?_, ?_, ?_⟩
      · simp [progressStep_passed, events]
      · simp [progressStep_user, events]
      · intro h
        rw [hint] at h
        exact absurd h (by decide)
    · rw [if_neg hint]
      obtain ⟨k, hk, hp, hu, hi⟩ := ih (offset + f.consumed)
        { progressStep dlg logSize offset st with
          passed := (progressStep dlg logSize offset st).passed ++ [f.evt]
          user := processEvent f.evt (progressStep dlg logSize offset st).user }
      refine ⟨k + 1, by simpa using hk, ?_, ?_, ?_⟩
      · rw [hp]
        simp [progressStep_passed, events]
      · rw [hu]
        simp [progressStep_user, events]
      · intro h
        simpa using hi h

/-! ## Ingestion of one record and of a list of records -/

theorem flush_processData (t : ℚ) (st : IngestState) (name : String) (d : FieldData) :
    flush t (processData st name d) = specAppend t (flush t st) { name := name, data := d } := by
  cases d <;>
    simp [flush, processData, specAppend, specValue, List.foldl_append, toDoubleInt,
      toDoubleByte, toDoubleBool]

theorem flush_foldl_processData (t : ℚ) :
    ∀ (fields : List Field) (st : IngestState),
      flush t (fields.foldl (fun s f => processData s f.name f.data) st) =
        fields.foldl (specAppend t) (flush t st) := by
  intro fields
  induction fields with
  | nil => intro st; rfl
  | cons f rest ih =>
    intro st
    simp only [List.foldl_cons]
    rw [ih, flush_processData]

theorem seconds_eq (evt : LogEvent) : seconds evt = (evt.timestamp : ℚ) / 10 ^ 6 := by
  unfold seconds
  norm_num

/-- On a state whose pending vectors are empty, `processEvent` appends what the
specification describes for the record and leaves the vectors empty. -/
theorem processEvent_eq_specRecord (introspect : Introspect) (channels : List String)
    (types : TypeDb) (evt : LogEvent) (pd : PlotDataMapRef) :
    processEvent introspect channels types evt { numerics := [], strings := [], plot_data := pd } =
      { numerics := [], strings := [],
        plot_data := specRecord introspect channels types pd evt } := by
  unfold processEvent specRecord
  by_cases h : evt.channel ∈ channels
  · have hf := flush_foldl_processData (seconds evt)
      (introspect evt.channel evt.data "/" types)
      { numerics := [], strings := [], plot_data := pd }
    rw [if_neg (not_not.mpr h), if_pos h]
    show IngestState.mk [] [] (flush (seconds evt) _) = _
    rw [hf, seconds_eq]
    rfl
  · rw [if_pos h, if_neg h]

theorem foldl_processEvent_eq_specScan (introspect : Introspect) (channels : List String)
    (types : TypeDb) :
    ∀ (evts : List LogEvent) (pd : PlotDataMapRef),
      evts.foldl (fun u e => processEvent introspect channels types e u)
          { numerics := [], strings := [], plot_data := pd } =
        { numerics := [], strings := [],
          plot_data := specScan introspect channels types evts pd } := by
  intro evts
  induction evts with
  | nil => intro pd; rfl
  | cons e rest ih =>
    intro pd
    simp only [List.foldl_cons, processEvent_eq_specRecord, ih, specScan]

/-- A run of the scan loop with the `processEvent` of `readDataFromFile`, for
any selection: the sink holds what the specification describes for the events
handed over, and these are all events of the log when the run is not
interrupted. -/
theorem scan_user (introspect : Introspect) (channels : List String) (types : TypeDb)
    (dlg : ProgressDialog) (log : LogFile) (last : Nat) (pd : PlotDataMapRef) :
    (processInputLog (some log) dlg (processEvent introspect channels types) last
        { numerics := [], strings := [], plot_data := pd }).2.user =
      { numerics := [], strings := [],
        plot_data := specScan introspect channels types
          (processInputLog (some log) dlg (processEvent introspect channels types) last
            { numerics := [], strings := [], plot_data := pd }).2.passed pd } ∧
    ((processInputLog (some log) dlg (processEvent introspect channels types) last
        { numerics := [], strings := [], plot_data := pd }).2.interrupted = false →
      (processInputLog (some log) dlg (processEvent introspect channels types) last
        { numerics := [], strings := [], plot_data := pd }).2.passed = events log.frames) := by
  obtain ⟨k, hk, hp, hu, hi⟩ := processLog_prefix dlg log.size
    (processEvent introspect channels types) log.frames 0
    (initState last { numerics := [], strings := [], plot_data := pd })
  simp only [processInputLog]
  refine ⟨?_, ?_⟩
  · rw [hu, hp]
    simp only [initState, List.nil_append]
    exact foldl_processEvent_eq_specScan introspect channels types _ pd
  · intro h
    rw [hp, hi h]
    simp [initState]

/-! ## The scan of `readDataFromFile` -/

theorem readDataFromFile_of_not_ok (w : World) (info : FileLoadInfo) (last : Nat)
    (pd : PlotDataMapRef) (h : (selectChannels w info last).ok = false) :
    readDataFromFile w info last pd =
      { ok := false, plot_data := pd,
        lastPrintPercent := (selectChannels w info last).lastPrintPercent,
        channels := none, scan := none } := by
  simp [readDataFromFile, h]

theorem readDataFromFile_of_not_good (w : World) (info : FileLoadInfo) (last : Nat)
    (pd : PlotDataMapRef) (h : (selectChannels w info last).ok = true)
    (hg : w.types.good = false) :
    readDataFromFile w info last pd =
      { ok := false, plot_data := pd,
        lastPrintPercent := (selectChannels w info last).lastPrintPercent,
        channels := some (selectChannels w info last).channels, scan := none } := by
  simp [readDataFromFile, h, hg]

theorem readDataFromFile_of_not_open (w : World) (info : FileLoadInfo) (last : Nat)
    (pd : PlotDataMapRef) (h : (selectChannels w info last).ok = true)
    (hg : w.types.good = true) (ho : w.openLog info.filename = none) :
    readDataFromFile w info last pd =
      { ok := false, plot_data := pd,
        lastPrintPercent := (selectChannels w info last).lastPrintPercent,
        channels := some (selectChannels w info last).channels, scan := none } := by
  simp [readDataFromFile, h, hg, ho, processInputLog, initState]

theorem readDataFromFile_of_open (w : World) (info : FileLoadInfo) (last : Nat)
    (pd : PlotDataMapRef) (log : LogFile) (h : (selectChannels w info last).ok = true)
    (hg : w.types.good = true) (ho : w.openLog info.filename = some log) :
    readDataFromFile w info last pd =
      { ok := true
        plot_data := (processInputLog (some log) w.scanProgress
          (processEvent w.introspect (selectChannels w info last).channels w.types)
          (selectChannels w info last).lastPrintPercent
          { numerics := [], strings := [], plot_data := pd }).2.user.plot_data
        lastPrintPercent := (processInputLog (some log) w.scanProgress
          (processEvent w.introspect (selectChannels w info last).channels w.types)
          (selectChannels w info last).lastPrintPercent
          { numerics := [], strings := [], plot_data := pd }).2.lastPrintPercent
        channels := some (selectChannels w info last).channels
        scan := some (processInputLog (some log) w.scanProgress
          (processEvent w.introspect (selectChannels w info last).channels w.types)
          (selectChannels w info last).lastPrintPercent
          { numerics := [], strings := [], plot_data := pd }).2 } := by
  simp [readDataFromFile, h, hg, ho, processInputLog]

/-- The four ways through `readDataFromFile`. -/
theorem readDataFromFile_cases (w : World) (info : FileLoadInfo) (last : Nat) :
    (selectChannels w info last).ok = false ∨
    ((selectChannels w info last).ok = true ∧ w.types.good = false) ∨
    ((selectChannels w info last).ok = true ∧ w.types.good = true ∧
      w.openLog info.filename = none) ∨
    ((selectChannels w info last).ok = true ∧ w.types.good = true ∧
      ∃ log, w.openLog info.filename = some log) := by
  cases h1 : (selectChannels w info last).ok
  · exact Or.inl rfl
  · cases h2 : w.types.good
    · exact Or.inr (Or.inl ⟨rfl, rfl⟩)
    · cases h3 : w.openLog info.filename with
      | none => exact Or.inr (Or.inr (Or.inl ⟨rfl, rfl, rfl⟩))
      | some log => exact Or.inr (Or.inr (Or.inr ⟨rfl, rfl, log, rfl⟩))

/-- When `readDataFromFile` reaches its scan, the outcome in terms of the run
of `processInputLog`. -/
theorem readDataFromFile_scan (w : World) (info : FileLoadInfo) (last : Nat)
    (pd : PlotDataMapRef) (run : ScanState IngestState)
    (h : (readDataFromFile w info last pd).scan = some run) :
    ∃ log channels b,
      w.openLog info.filename = some log ∧
      (readDataFromFile w info last pd).channels = some channels ∧
      (readDataFromFile w info last pd).ok = true ∧
      (readDataFromFile w info last pd).plot_data = run.user.plot_data ∧
      run = (processInputLog (some log) w.scanProgress
        (processEvent w.introspect channels w.types) b
        { numerics := [], strings := [], plot_data := pd }).2 := by
  rcases readDataFromFile_cases w info last with h1 | ⟨h1, h2⟩ | ⟨h1, h2, h3⟩ | ⟨h1, h2, log, h3⟩
  · rw [readDataFromFile_of_not_ok w info last pd h1] at h
    simp at h
  · rw [readDataFromFile_of_not_good w info last pd h1 h2] at h
    simp at h
  · rw [readDataFromFile_of_not_open w info last pd h1 h2 h3] at h
    simp at h
  · rw [readDataFromFile_of_open w info last pd log h1 h2 h3] at h ⊢
    simp only [Option.some.injEq] at h
    exact ⟨log, _, _, h3, rfl, rfl, by rw [← h], h.symm⟩

/-- A scan by `readDataFromFile` that ran and was not interrupted returns true
and leaves in the sink what the specification describes for all records of the
log. -/
theorem readDataFromFile_eq_specScan (w : World) (info : FileLoadInfo)
    (last : Nat) (pd : PlotDataMapRef)
    (h : (readDataFromFile w info last pd).scan.map ScanState.interrupted = some false) :
    ∃ log channels,
      w.openLog info.filename = some log ∧
      (readDataFromFile w info last pd).channels = some channels ∧
      (readDataFromFile w info last pd).ok = true ∧
      (readDataFromFile w info last pd).plot_data =
        specScan w.introspect channels w.types (events log.frames) pd := by
  cases hscan : (readDataFromFile w info last pd).scan with
  | none => simp [hscan] at h
  | some run =>
    rw [hscan] at h
    simp only [Option.map_some', Option.some.injEq] at h
    obtain ⟨log, channels, b, hopen, hch, hok, hpd, hrun⟩ :=
      readDataFromFile_scan w info last pd run hscan
    refine ⟨log, channels, hopen, hch, hok, ?_⟩
    obtain ⟨hu, hp⟩ := scan_user w.introspect channels w.types w.scanProgress log b pd
    rw [← hrun] at hu hp
    rw [hpd, hu, hp h]

/-- C1. A scan by `readDataFromFile` that is not cancelled leaves in the sink
exactly what the specification describes: starting from the sink before the
call, for each record of the log in file order whose channel is in the
selection and for each field the decoder reports for it in decoder order, one
sample (timestamp / 10^6, value) at the end of the numeric or of the string
series of that name, created when absent; other records append nothing. -/
theorem readDataFromFile_appends_decoded_fields (w : World) (info : FileLoadInfo)
    (last : Nat) (pd : PlotDataMapRef)
    (h : (readDataFromFile w info last pd).scan.map ScanState.interrupted = some false) :
    ∃ log channels,
      w.openLog info.filename = some log ∧
      (readDataFromFile w info last pd).channels = some channels ∧
      (readDataFromFile w info last pd).ok = true ∧
      (readDataFromFile w info last pd).plot_data =
        specScan w.introspect channels w.types (events log.frames) pd := by
  cases hscan : (readDataFromFile w info last pd).scan with
  | none => simp [hscan] at h
  | some run =>
    rw [hscan] at h
    simp only [Option.map_some', Option.some.injEq] at h
    obtain ⟨log, channels, b, hopen, hch, hok, hpd, hrun⟩ :=
      readDataFromFile_scan w info last pd run hscan
    obtain ⟨hu, hp⟩ := scan_user w.introspect channels w.types w.scanProgress log b pd
    rw [← hrun] at hu hp
    exact ⟨log, channels, hopen, hch, hok, by rw [hpd, hu, hp h]⟩

/-- C1, witness: the two records on "IMU" at 1_000_000 and 2_000_000
microseconds with the float64 field `accel = 9.8` give the numeric series
`accel` the samples (1, 9.8) and (2, 9.8). -/
theorem readDataFromFile_appends_decoded_fields_witness :
    (readDataFromFile imuWorld imuInfo 0 emptySink).scan.map ScanState.interrupted =
        some false ∧
      (readDataFromFile imuWorld imuInfo 0 emptySink).plot_data =
        { numeric := [("accel", [(1, 9.8), (2, 9.8)])], strings := [] } := by
  have hyp : (readDataFromFile imuWorld imuInfo 0 emptySink).scan.map
      ScanState.interrupted = some false := by decide
  refine ⟨hyp, ?_⟩
  obtain ⟨log, channels, hopen, hch, _, hpd⟩ :=
    readDataFromFile_appends_decoded_fields imuWorld imuInfo 0 emptySink hyp
  have hlog : log = imuLog := by
    simp only [imuWorld, Option.some.injEq] at hopen
    exact hopen.symm
  have hsel : (readDataFromFile imuWorld imuInfo 0 emptySink).channels = some ["IMU"] := by
    decide
  rw [hsel, Option.some.injEq] at hch
  rw [hpd, hlog, ← hch]
  norm_num [specScan, specRecord, specAppend, specValue, events, imuLog, imuWorld,
    emptySink, ingest, hasSeries, keys, addSeries, pushBack]

/-! ## Progress notifications -/

/-- C5. In a run of `processInputLog` over a log whose reads stay within the
file size (file positions only grow, being sums of consumed bytes), every
percent passed to `setValue` lies in [0, 100] and the values passed are in
non-decreasing order, whatever `lastPrintPercent` holds at the start and
whatever the dialog answers. -/
theorem processInputLog_progress_bounded_monotone {σ : Type} (log : LogFile)
    (dlg : ProgressDialog) (processEvent : LogEvent → σ → σ) (last : Nat) (user : σ)
    (h : endOffset 0 log.frames ≤ log.size) :
    (∀ p ∈ (processInputLog (some log) dlg processEvent last user).2.shown,
        0 ≤ p ∧ p ≤ 100) ∧
      (processInputLog (some log) dlg processEvent last user).2.shown.Pairwise (· ≤ ·) := by
  obtain ⟨new, hs, hpw, hall⟩ := processLog_shown dlg log.size processEvent log.frames 0
    (initState last user)
  simp only [processInputLog]
  rw [hs]
  simp only [initState, List.nil_append]
  refine ⟨?_, hpw.imp (fun hab => Nat.le_of_lt hab)⟩
  intro p hp
  exact ⟨Nat.zero_le _, le_trans (hall p hp).2.1 (percentOf_le_hundred h)⟩

/-- C5, witness: the two-record log of 100 bytes, read from a static of 37. -/
theorem processInputLog_progress_bounded_monotone_witness :
    endOffset 0 imuLog.frames ≤ imuLog.size ∧
      (processInputLog (some imuLog) neverCanceled (fun _ (n : Nat) => n + 1) 37 0).2.shown =
        [0, 50, 100] ∧
      ((∀ p ∈ (processInputLog (some imuLog) neverCanceled
            (fun _ (n : Nat) => n + 1) 37 0).2.shown, 0 ≤ p ∧ p ≤ 100) ∧
        (processInputLog (some imuLog) neverCanceled
          (fun _ (n : Nat) => n + 1) 37 0).2.shown.Pairwise (· ≤ ·)) :=
  ⟨by decide, by decide,
    processInputLog_progress_bounded_monotone imuLog neverCanceled
      (fun _ (n : Nat) => n + 1) 37 0 (by decide)⟩

/-- C8. In a run of `processInputLog` (file positions only grow, being sums of
consumed bytes) no percent value is passed to `setValue` more than once,
whatever value `lastPrintPercent` holds when the run starts and whatever the
dialog answers. -/
theorem processInputLog_progress_no_repetition {σ : Type} (log : LogFile)
    (dlg : ProgressDialog) (processEvent : LogEvent → σ → σ) (last : Nat) (user : σ) :
    (processInputLog (some log) dlg processEvent last user).2.shown.Nodup := by
  obtain ⟨new, hs, hpw, _⟩ := processLog_shown dlg log.size processEvent log.frames 0
    (initState last user)
  simp only [processInputLog]
  rw [hs]
  simp only [initState, List.nil_append]
  exact hpw.imp (fun hab => Nat.ne_of_lt hab)

/-! ## Saved configuration and fatal errors -/

theorem processEvent_nil_channels (introspect : Introspect) (types : TypeDb)
    (evt : LogEvent) (st : IngestState) :
    processEvent introspect [] types evt st = st := by
  simp [processEvent]

theorem foldl_processEvent_nil_channels (introspect : Introspect) (types : TypeDb) :
    ∀ (evts : List LogEvent) (st : IngestState),
      evts.foldl (fun u e => processEvent introspect [] types e u) st = st := by
  intro evts
  induction evts with
  | nil => intro st; rfl
  | cons e rest ih =>
    intro st
    rw [List.foldl_cons, processEvent_nil_channels, ih]

theorem selectChannels_of_hasChildNodes (w : World) (info : FileLoadInfo) (last : Nat)
    (h : info.hasChildNodes = true) :
    selectChannels w info last =
      { ok := true, channels := [], items := [], lastPrintPercent := last,
        interrupted := false, passed := [] } := by
  simp [selectChannels, h, xmlLoadState]

/-- C10. With a saved plugin configuration that has child nodes the dialog is
skipped and the selection is the empty set: every record is filtered out by
`processEvent`, the sink is left as it was, and the call returns true whenever
the schema bundle loads and the log can be opened (and only then). -/
theorem readDataFromFile_saved_config (w : World) (info : FileLoadInfo) (last : Nat)
    (pd : PlotDataMapRef) (h : info.hasChildNodes = true) :
    (selectChannels w info last).channels = [] ∧
      (∀ (evt : LogEvent) (st : IngestState),
        processEvent w.introspect (selectChannels w info last).channels w.types evt st = st) ∧
      (readDataFromFile w info last pd).plot_data = pd ∧
      ((readDataFromFile w info last pd).ok = true ↔
        (w.types.good = true ∧ ∃ log, w.openLog info.filename = some log)) := by
  have hsel := selectChannels_of_hasChildNodes w info last h
  have hok : (selectChannels w info last).ok = true := by rw [hsel]
  have hch : (selectChannels w info last).channels = [] := by rw [hsel]
  refine ⟨hch, ?_, ?_, ?_⟩
  · intro evt st
    rw [hch]
    exact processEvent_nil_channels _ _ _ _
  · rcases readDataFromFile_cases w info last with h1 | ⟨h1, h2⟩ | ⟨h1, h2, h3⟩ |
      ⟨h1, h2, log, h3⟩
    · rw [readDataFromFile_of_not_ok w info last pd h1]
    · rw [readDataFromFile_of_not_good w info last pd h1 h2]
    · rw [readDataFromFile_of_not_open w info last pd h1 h2 h3]
    · rw [readDataFromFile_of_open w info last pd log h1 h2 h3]
      simp only [hch, processInputLog]
      obtain ⟨k, _, _, hu, _⟩ := processLog_prefix w.scanProgress log.size
        (processEvent w.introspect [] w.types) log.frames 0
        (initState (selectChannels w info last).lastPrintPercent
          { numerics := [], strings := [], plot_data := pd })
      rw [hu, foldl_processEvent_nil_channels]
      rfl
  · rcases readDataFromFile_cases w info last with h1 | ⟨h1, h2⟩ | ⟨h1, h2, h3⟩ |
      ⟨h1, h2, log, h3⟩
    · rw [hok] at h1
      exact absurd h1 (by decide)
    · rw [readDataFromFile_of_not_good w info last pd h1 h2]
      simp [h2]
    · rw [readDataFromFile_of_not_open w info last pd h1 h2 h3]
      simp [h3]
    · rw [readDataFromFile_of_open w info last pd log h1 h2 h3]
      simp [h2, h3]

/-- C10, witness: the example world called with a saved configuration. -/
theorem readDataFromFile_saved_config_witness :
    ({ filename := "imu.zcmlog", hasChildNodes := true } : FileLoadInfo).hasChildNodes = true ∧
      (readDataFromFile imuWorld { filename := "imu.zcmlog", hasChildNodes := true } 0
        emptySink).plot_data = emptySink ∧
      (readDataFromFile imuWorld { filename := "imu.zcmlog", hasChildNodes := true } 0
        emptySink).ok = true :=
  ⟨rfl,
    (readDataFromFile_saved_config imuWorld
      { filename := "imu.zcmlog", hasChildNodes := true } 0 emptySink rfl).2.2.1,
    (readDataFromFile_saved_config imuWorld
      { filename := "imu.zcmlog", hasChildNodes := true } 0 emptySink rfl).2.2.2.mpr
      ⟨rfl, imuLog, rfl⟩⟩

theorem launchDialog_of_not_open (w : World) (filepath : String) (last : Nat)
    (h : w.openLog filepath = none) : (launchDialog w filepath last).ok = false := by
  simp [launchDialog, processInputLog, h]

theorem specRecord_of_no_field (introspect : Introspect) (channels : List String)
    (types : TypeDb) (pd : PlotDataMapRef) (evt : LogEvent)
    (h : introspect evt.channel evt.data "/" types = []) :
    specRecord introspect channels types pd evt = pd := by
  unfold specRecord
  rw [h]
  simp

theorem specScan_filter (introspect : Introspect) (channels : List String) (types : TypeDb) :
    ∀ (evts : List LogEvent) (pd : PlotDataMapRef),
      specScan introspect channels types evts pd =
        specScan introspect channels types
          (evts.filter (fun e => !(introspect e.channel e.data "/" types).isEmpty)) pd := by
  intro evts
  induction evts with
  | nil => intro pd; rfl
  | cons e rest ih =>
    intro pd
    by_cases h : introspect e.channel e.data "/" types = []
    · rw [List.filter_cons_of_neg (by simp [h])]
      rw [← ih pd]
      simp only [specScan, List.foldl_cons]
      rw [specRecord_of_no_field introspect channels types pd e h]
    · rw [List.filter_cons_of_pos (by simpa using h)]
      simp only [specScan, List.foldl_cons]
      exact ih _

/-- C7. Fatal errors and the unknown fingerprint.  `readDataFromFile` returns
false when the schema bundle fails to load and when the log file cannot be
opened; whenever it returns false the sink is as it was before the call; a
record for which the decoder reports no field leaves the state of the scan as
it is, and a scan that is not cancelled returns true with the sink holding the
samples of all selected records that have fields, the ones after such a record
included. -/
theorem readDataFromFile_fatal_errors (w : World) (info : FileLoadInfo) (last : Nat)
    (pd : PlotDataMapRef) :
    (w.types.good = false → (readDataFromFile w info last pd).ok = false) ∧
    (w.openLog info.filename = none → (readDataFromFile w info last pd).ok = false) ∧
    ((readDataFromFile w info last pd).ok = false →
      (readDataFromFile w info last pd).plot_data = pd) ∧
    (∀ (channels : List String) (evt : LogEvent) (sink : PlotDataMapRef),
      w.introspect evt.channel evt.data "/" w.types = [] →
      processEvent w.introspect channels w.types evt
          { numerics := [], strings := [], plot_data := sink } =
        { numerics := [], strings := [], plot_data := sink }) ∧
    ((readDataFromFile w info last pd).scan.map ScanState.interrupted = some false →
      ∃ log channels,
        w.openLog info.filename = some log ∧
        (readDataFromFile w info last pd).channels = some channels ∧
        (readDataFromFile w info last pd).ok = true ∧
        (readDataFromFile w info last pd).plot_data =
          specScan w.introspect channels w.types
            ((events log.frames).filter
              (fun e => !(w.introspect e.channel e.data "/" w.types).isEmpty)) pd) := by
  refine ⟨?_, ?_, ?_, ?_, ?_⟩
  · intro hg
    rcases readDataFromFile_cases w info last with h1 | ⟨h1, h2⟩ | ⟨h1, h2, h3⟩ |
      ⟨h1, h2, log, h3⟩
    · rw [readDataFromFile_of_not_ok w info last pd h1]
    · rw [readDataFromFile_of_not_good w info last pd h1 h2]
    · rw [hg] at h2
      exact absurd h2 (by decide)
    · rw [hg] at h2
      exact absurd h2 (by decide)
  · intro ho
    rcases readDataFromFile_cases w info last with h1 | ⟨h1, h2⟩ | ⟨h1, h2, h3⟩ |
      ⟨h1, h2, log, h3⟩
    · rw [readDataFromFile_of_not_ok w info last pd h1]
    · rw [readDataFromFile_of_not_good w info last pd h1 h2]
    · rw [readDataFromFile_of_not_open w info last pd h1 h2 h3]
    · rw [ho] at h3
      exact absurd h3 (by simp)
  · intro hf
    rcases readDataFromFile_cases w info last with h1 | ⟨h1, h2⟩ | ⟨h1, h2, h3⟩ |
      ⟨h1, h2, log, h3⟩
    · rw [readDataFromFile_of_not_ok w info last pd h1]
    · rw [readDataFromFile_of_not_good w info last pd h1 h2]
    · rw [readDataFromFile_of_not_open w info last pd h1 h2 h3]
    · rw [readDataFromFile_of_open w info last pd log h1 h2 h3] at hf
      exact absurd hf (by simp)
  · intro channels evt sink hnone
    rw [processEvent_eq_specRecord, specRecord_of_no_field _ _ _ _ _ hnone]
  · intro hscan
    obtain ⟨log, channels, hopen, hch, hok, hpd⟩ :=
      readDataFromFile_eq_specScan w info last pd hscan
    exact ⟨log, channels, hopen, hch, hok, by rw [hpd, specScan_filter]⟩

/-- C7, witness: a bundle that fails to load, a file that cannot be opened,
and a log whose first record has an unknown fingerprint and whose second
record is ingested. -/
theorem readDataFromFile_fatal_errors_witness :
    (badTypesWorld.types.good = false ∧
      (readDataFromFile badTypesWorld imuInfo 0 emptySink).ok = false ∧
      (readDataFromFile badTypesWorld imuInfo 0 emptySink).plot_data = emptySink) ∧
    (missingFileWorld.openLog imuInfo.filename = none ∧
      (readDataFromFile missingFileWorld imuInfo 0 emptySink).ok = false ∧
      (readDataFromFile missingFileWorld imuInfo 0 emptySink).plot_data = emptySink) ∧
    (mixedWorld.introspect "IMU" [0] "/" mixedWorld.types = [] ∧
      (readDataFromFile mixedWorld imuInfo 0 emptySink).scan.map ScanState.interrupted =
        some false ∧
      (readDataFromFile mixedWorld imuInfo 0 emptySink).ok = true ∧
      (readDataFromFile mixedWorld imuInfo 0 emptySink).plot_data =
        { numeric := [("accel", [(2, 9.8)])], strings := [] }) := by
  have hbad := readDataFromFile_fatal_errors badTypesWorld imuInfo 0 emptySink
  have hmiss := readDataFromFile_fatal_errors missingFileWorld imuInfo 0 emptySink
  have hmix := readDataFromFile_fatal_errors mixedWorld imuInfo 0 emptySink
  have hyp : (readDataFromFile mixedWorld imuInfo 0 emptySink).scan.map
      ScanState.interrupted = some false := by decide
  refine ⟨⟨rfl, hbad.1 rfl, hbad.2.2.1 (hbad.1 rfl)⟩,
    ⟨rfl, hmiss.2.1 rfl, hmiss.2.2.1 (hmiss.2.1 rfl)⟩, rfl, hyp, ?_, ?_⟩
  · obtain ⟨_, _, _, _, hok, _⟩ := hmix.2.2.2.2 hyp
    exact hok
  · obtain ⟨log, channels, hopen, hch, _, hpd⟩ := hmix.2.2.2.2 hyp
    have hlog : log = mixedLog := by
      simp only [mixedWorld, Option.some.injEq] at hopen
      exact hopen.symm
    have hsel : (readDataFromFile mixedWorld imuInfo 0 emptySink).channels = some ["IMU"] := by
      decide
    rw [hsel, Option.some.injEq] at hch
    rw [hpd, hlog, ← hch]
    norm_num [specScan, specRecord, specAppend, specValue, events, mixedLog, mixedWorld,
      imuWorld, emptySink, ingest, hasSeries, keys, addSeries, pushBack]

/-! ## Channel discovery -/

theorem mem_insertChannel (l : List String) (c x : String) :
    x ∈ insertChannel l c ↔ x ∈ l ∨ x = c := by
  unfold insertChannel
  by_cases h : c ∈ l
  · rw [if_pos h]
    constructor
    · exact Or.inl
    · rintro (hx | hx)
      · exact hx
      · rw [hx]; exact h
  · rw [if_neg h]
    simp

theorem nodup_insertChannel (l : List String) (c : String) (hl : l.Nodup) :
    (insertChannel l c).Nodup := by
  unfold insertChannel
  by_cases h : c ∈ l
  · rw [if_pos h]; exact hl
  · rw [if_neg h]
    rw [List.nodup_append]
    refine ⟨hl, List.nodup_singleton c, ?_⟩
    intro a ha hb
    rw [List.mem_singleton] at hb
    subst hb
    exact h ha

theorem foldl_insertChannel (evts : List LogEvent) :
    ∀ (l : List String), l.Nodup →
      (evts.foldl (fun channels e => insertChannel channels e.channel) l).Nodup ∧
      ∀ x, x ∈ evts.foldl (fun channels e => insertChannel channels e.channel) l ↔
        x ∈ l ∨ x ∈ evts.map LogEvent.channel := by
  induction evts with
  | nil => intro l hl; simp [hl]
  | cons e rest ih =>
    intro l hl
    obtain ⟨hn, hm⟩ := ih (insertChannel l e.channel) (nodup_insertChannel l e.channel hl)
    simp only [List.foldl_cons]
    refine ⟨hn, ?_⟩
    intro x
    rw [hm x, mem_insertChannel]
    simp only [List.map_cons, List.mem_cons]
    tauto

/-- With an opened log, `launchDialog` offers the set collected by the
pre-scan and reports the static and the interruption of that run. -/
theorem launchDialog_of_open (w : World) (filepath : String) (last : Nat) (log : LogFile)
    (h : w.openLog filepath = some log) :
    (launchDialog w filepath last).items =
        (processInputLog (some log) w.discoveryProgress
          (fun evt channels => insertChannel channels evt.channel) last []).2.user ∧
      (launchDialog w filepath last).interrupted =
        (processInputLog (some log) w.discoveryProgress
          (fun evt channels => insertChannel channels evt.channel) last []).2.interrupted ∧
      (launchDialog w filepath last).lastPrintPercent =
        (processInputLog (some log) w.discoveryProgress
          (fun evt channels => insertChannel channels evt.channel) last []).2.lastPrintPercent ∧
      (launchDialog w filepath last).passed =
        (processInputLog (some log) w.discoveryProgress
          (fun evt channels => insertChannel channels evt.channel) last []).2.passed := by
  unfold launchDialog
  simp only [h, processInputLog, ne_eq, not_true_eq_false, if_false]
  split <;> exact ⟨rfl, rfl, rfl, rfl⟩

/-- C2, as amended.  The pre-scan of `launchDialog` reads a prefix of the
records of the log, the whole log when it is not cancelled.  The names offered
for selection are without repetition and are exactly the channel values of the
records read; so when the pre-scan is not cancelled they are exactly the
distinct channel values across all records of the log. -/
theorem launchDialog_discovers_channels (w : World) (filepath : String) (last : Nat)
    (log : LogFile) (h : w.openLog filepath = some log) :
    (launchDialog w filepath last).items.Nodup ∧
      (launchDialog w filepath last).passed <+: events log.frames ∧
      (∀ c, c ∈ (launchDialog w filepath last).items ↔
        c ∈ (launchDialog w filepath last).passed.map LogEvent.channel) ∧
      ((launchDialog w filepath last).interrupted = false →
        (launchDialog w filepath last).passed = events log.frames ∧
        ∀ c, c ∈ (launchDialog w filepath last).items ↔
          c ∈ (events log.frames).map LogEvent.channel) := by
  obtain ⟨hitems, hint, _, hpassed⟩ := launchDialog_of_open w filepath last log h
  obtain ⟨k, _, hp, hu, hi⟩ := processLog_prefix w.discoveryProgress log.size
    (fun evt channels => insertChannel channels evt.channel) log.frames 0
    (initState last [])
  obtain ⟨hn, hm⟩ := foldl_insertChannel (events (log.frames.take k)) [] List.nodup_nil
  have hp' : (launchDialog w filepath last).passed = events (log.frames.take k) := by
    rw [hpassed]
    simp only [processInputLog]
    rw [hp]
    simp [initState]
  have hu' : (launchDialog w filepath last).items =
      (events (log.frames.take k)).foldl
        (fun channels e => insertChannel channels e.channel) [] := by
    rw [hitems]
    simp only [processInputLog]
    rw [hu]
    rfl
  have hmem : ∀ c, c ∈ (launchDialog w filepath last).items ↔
      c ∈ (launchDialog w filepath last).passed.map LogEvent.channel := by
    intro c
    rw [hu', hp', hm c]
    simp
  refine ⟨by rw [hu']; exact hn, ?_, hmem, ?_⟩
  · rw [hp']
    simp only [events, List.map_take]
    exact (List.take_prefix k (log.frames.map Frame.evt))
  · intro hni
    rw [hint] at hni
    simp only [processInputLog] at hni
    have hk := hi hni
    have hall : (launchDialog w filepath last).passed = events log.frames := by
      rw [hp', hk, List.take_length]
    exact ⟨hall, fun c => by rw [hmem c, hall]⟩

/-- C2, witness of the amended claim: the pre-scan of the four-record log,
never cancelled, offers "A" and "B". -/
theorem launchDialog_discovers_channels_witness :
    abWorld.openLog "ab.zcmlog" = some abLog ∧
      (launchDialog abWorld "ab.zcmlog" 0).interrupted = false ∧
      (launchDialog abWorld "ab.zcmlog" 0).items = ["A", "B"] ∧
      (∀ c, c ∈ (launchDialog abWorld "ab.zcmlog" 0).items ↔
        c ∈ (events abLog.frames).map LogEvent.channel) :=
  ⟨rfl, by decide, by decide,
    ((launchDialog_discovers_channels abWorld "ab.zcmlog" 0 abLog rfl).2.2.2 (by decide)).2⟩

/-- C2, counterexample to the claim as stated: cancel is pressed after two
records of the four-record log; the pre-scan offers only "A" although the log
has records on "B". -/
theorem launchDialog_cancelled_misses_channel :
    cancelledDiscoveryWorld.openLog "ab.zcmlog" = some abLog ∧
      (launchDialog cancelledDiscoveryWorld "ab.zcmlog" 0).items = ["A"] ∧
      ¬ (∀ c, c ∈ (launchDialog cancelledDiscoveryWorld "ab.zcmlog" 0).items ↔
        c ∈ (events abLog.frames).map LogEvent.channel) := by
  refine ⟨rfl, by decide, ?_⟩
  intro hall
  have hB : "B" ∈ (launchDialog cancelledDiscoveryWorld "ab.zcmlog" 0).items :=
    (hall "B").mpr (by decide)
  revert hB
  decide

/-! ## Cancellation -/

theorem progressStep_interrupted_of_tick {σ : Type} (dlg : ProgressDialog)
    (logSize offset : Nat) (st : ScanState σ)
    (htick : percentOf logSize offset ≠ st.lastPrintPercent)
    (hc : dlg.wasCanceled (st.shown ++ [percentOf logSize offset]) st.passed.length = true) :
    (progressStep dlg logSize offset st).interrupted = true := by
  unfold progressStep
  simp [htick, hc]

/-- The loop from any state, when every poll made once `N` records have been
processed answers true: if the percent changes in the iteration that is `j`
iterations ahead, and at least `N` records have been processed by then, the
run hands over at most `j` further records and ends interrupted. -/
theorem processLog_cancel {σ : Type} (dlg : ProgressDialog) (logSize : Nat)
    (processEvent : LogEvent → σ → σ) (N : Nat)
    (hN : ∀ shown n, N ≤ n → dlg.wasCanceled shown n = true) :
    ∀ (frames : List Frame) (offset : Nat) (st : ScanState σ) (j : Nat),
      N ≤ st.passed.length + j → j ≤ frames.length →
      percentOf logSize (endOffset offset (frames.take j)) ≠
        (if j = 0 then st.lastPrintPercent
          else percentOf logSize (endOffset offset (frames.take (j - 1)))) →
      (processLog dlg logSize processEvent frames offset st).passed.length ≤
          st.passed.length + j ∧
        (processLog dlg logSize processEvent frames offset st).interrupted = true := by
  intro frames
  induction frames with
  | nil =>
    intro offset st j hj hlen htick
    have hj0 : j = 0 := by simpa using hlen
    subst hj0
    simp only [List.take_nil, endOffset, List.map_nil, List.sum_nil, Nat.add_zero,
      if_true] at htick
    simp only [processLog, progressStep_passed]
    exact ⟨Nat.le_add_right _ _,
      progressStep_interrupted_of_tick dlg logSize offset st htick (hN _ _ (by simpa using hj))⟩
  | cons f rest ih =>
    intro offset st j hj hlen htick
    simp only [processLog]
    cases j with
    | zero =>
      simp only [List.take_zero, endOffset, List.map_nil, List.sum_nil, Nat.add_zero,
        if_true] at htick
      have hint := progressStep_interrupted_of_tick dlg logSize offset st htick
        (hN _ _ (by simpa using hj))
      rw [if_pos hint]
      exact ⟨by simp [progressStep_passed], hint⟩
    | succ j' =>
      by_cases hint : (progressStep dlg logSize offset st).interrupted = true
      · rw [if_pos hint]
        exact ⟨by simp [progressStep_passed], hint⟩
      · rw [if_neg hint]
        have key : ∀ st2 : ScanState σ, st2.passed.length = st.passed.length + 1 →
            st2.lastPrintPercent = percentOf logSize offset →
            (processLog dlg logSize processEvent rest (offset + f.consumed) st2).passed.length ≤
                st.passed.length + (j' + 1) ∧
              (processLog dlg logSize processEvent rest (offset + f.consumed) st2).interrupted =
                true := by
          intro st2 hp2 hl2
          have h1 : endOffset offset ((f :: rest).take (j' + 1)) =
              endOffset (offset + f.consumed) (rest.take j') := by
            simp [endOffset, Nat.add_assoc]
          rw [h1] at htick
          simp only [Nat.add_one_ne_zero, if_false, Nat.add_sub_cancel] at htick
          have hstep := ih (offset + f.consumed) st2 j' (by omega) (by simpa using hlen)
            (by
              cases j' with
              | zero =>
                simp only [if_true, hl2]
                simpa [endOffset] using htick
              | succ i =>
                simp only [Nat.add_one_ne_zero, if_false, Nat.add_sub_cancel]
                have h2 : endOffset offset ((f :: rest).take (i + 1)) =
                    endOffset (offset + f.consumed) (rest.take i) := by
                  simp [endOffset, Nat.add_assoc]
                rw [h2] at htick
                exact htick)
          exact ⟨by have := hstep.1; omega, hstep.2⟩
        exact key _ (by simp [progressStep_passed]) (by simp [progressStep_lastPrintPercent])

/-- C3, as amended.  Cancellation is polled only in a loop iteration whose
percent differs from `lastPrintPercent`.  If every poll made once `N` records
have been processed answers true, and `j ≥ N` is an iteration in which the
percent changes (the percent before record `j + 1` differs from the one of
the iteration before, or from the start value of the static when `j = 0`),
then `processInputLog` hands at most the first `j` records to `processEvent`
and the run ends interrupted. -/
theorem processInputLog_cancel_at_percent_change {σ : Type} (log : LogFile)
    (dlg : ProgressDialog) (processEvent : LogEvent → σ → σ) (last : Nat) (user : σ)
    (N j : Nat) (hN : ∀ shown n, N ≤ n → dlg.wasCanceled shown n = true)
    (hj : N ≤ j) (hlen : j ≤ log.frames.length)
    (htick : percentAt log j ≠ lastAt last log j) :
    (processInputLog (some log) dlg processEvent last user).2.passed.length ≤ j ∧
      (processInputLog (some log) dlg processEvent last user).2.interrupted = true := by
  have h := processLog_cancel dlg log.size processEvent N hN log.frames 0
    (initState last user) j (by simpa [initState] using hj) hlen
    (by simpa [percentAt, lastAt, initState] using htick)
  simpa [processInputLog, initState] using h

/-- C3, witness of the amended claim: on `slowTickLog`, cancel pressed after
the second record is seen in iteration 4, where the percent becomes 50; four
records have been handed over and the run ends interrupted. -/
theorem processInputLog_cancel_at_percent_change_witness :
    (∀ shown n, 2 ≤ n → (cancelFrom 2).wasCanceled shown n = true) ∧
      2 ≤ 4 ∧ 4 ≤ slowTickLog.frames.length ∧
      percentAt slowTickLog 4 ≠ lastAt 0 slowTickLog 4 ∧
      (processInputLog (some slowTickLog) (cancelFrom 2)
          (fun _ (n : Nat) => n + 1) 0 0).2.passed.length ≤ 4 ∧
      (processInputLog (some slowTickLog) (cancelFrom 2)
          (fun _ (n : Nat) => n + 1) 0 0).2.interrupted = true :=
  ⟨fun _ _ h => by simpa [cancelFrom] using h, by decide, by decide, by decide,
    processInputLog_cancel_at_percent_change slowTickLog (cancelFrom 2)
      (fun _ (n : Nat) => n + 1) 0 0 2 4 (fun _ _ h => by simpa [cancelFrom] using h)
      (by decide) (by decide) (by decide)⟩

/-- C3, counterexample to the claim as stated, with N = 2: cancel is pressed
once the second record has been processed.  On `slowTickLog` the percent is 1
from the first record until the fourth record has been read, so records 3 and
4 are handed to `processEvent` before the poll at 50 percent, one more than
N + 1 allows; on `truncatedLog` the percent does not change after the first
record, no further poll is made and the run ends without interruption. -/
theorem processInputLog_cancel_not_within_one_record :
    (∀ shown n, 2 ≤ n → (cancelFrom 2).wasCanceled shown n = true) ∧
      (processInputLog (some slowTickLog) (cancelFrom 2)
          (fun _ (n : Nat) => n + 1) 0 0).2.passed.length = 4 ∧
      ¬ ((processInputLog (some slowTickLog) (cancelFrom 2)
          (fun _ (n : Nat) => n + 1) 0 0).2.passed.length ≤ 2 + 1) ∧
      (processInputLog (some truncatedLog) (cancelFrom 2)
          (fun _ (n : Nat) => n + 1) 0 0).2.passed.length = 3 ∧
      (processInputLog (some truncatedLog) (cancelFrom 2)
          (fun _ (n : Nat) => n + 1) 0 0).2.interrupted = false :=
  ⟨fun _ _ h => by simpa [cancelFrom] using h, by decide, by decide, by decide, by decide⟩

/-! ## Keys of the sink: no kind is kept per name -/

theorem keys_pushBack {V : Type} (name : String) (x : ℚ × V) :
    ∀ m : SeriesMap V, keys (pushBack m name x) = keys m := by
  intro m
  induction m with
  | nil => rfl
  | cons e rest ih =>
    obtain ⟨k, samples⟩ := e
    unfold pushBack
    by_cases h : k = name
    · rw [if_pos h]; rfl
    · rw [if_neg h]
      simp only [keys, List.map_cons] at ih ⊢
      rw [ih]

theorem mem_keys_ingest {V : Type} (m : SeriesMap V) (name : String) (s : ℚ × V)
    (x : String) : x ∈ keys (ingest m name s) ↔ x ∈ keys m ∨ x = name := by
  unfold ingest
  rw [keys_pushBack]
  by_cases h : name ∈ keys m
  · have hf : hasSeries m name = true := by simp [hasSeries, h]
    rw [hf, if_pos rfl]
    constructor
    · exact Or.inl
    · rintro (hx | hx)
      · exact hx
      · rw [hx]; exact h
  · have hf : hasSeries m name = false := by simp [hasSeries, h]
    rw [hf, if_neg (by decide)]
    simp [addSeries, keys]

theorem mem_keys_specAppend (t : ℚ) (pd : PlotDataMapRef) (f : Field) (x : String) :
    (x ∈ keys (specAppend t pd f).numeric ↔
        x ∈ keys pd.numeric ∨ x ∈ numericNames [f]) ∧
      (x ∈ keys (specAppend t pd f).strings ↔
        x ∈ keys pd.strings ∨ x ∈ stringNames [f]) := by
  unfold specAppend numericNames stringNames
  cases hv : specValue f.data with
  | inl v => simp [hv, mem_keys_ingest]
  | inr v => simp [hv, mem_keys_ingest]

theorem numericNames_append (a b : List Field) :
    numericNames (a ++ b) = numericNames a ++ numericNames b := by
  simp [numericNames]

theorem stringNames_append (a b : List Field) :
    stringNames (a ++ b) = stringNames a ++ stringNames b := by
  simp [stringNames]

theorem mem_keys_foldl_specAppend (t : ℚ) (x : String) :
    ∀ (fields : List Field) (pd : PlotDataMapRef),
      (x ∈ keys (fields.foldl (specAppend t) pd).numeric ↔
          x ∈ keys pd.numeric ∨ x ∈ numericNames fields) ∧
        (x ∈ keys (fields.foldl (specAppend t) pd).strings ↔
          x ∈ keys pd.strings ∨ x ∈ stringNames fields) := by
  intro fields
  induction fields with
  | nil => intro pd; simp [numericNames, stringNames]
  | cons f rest ih =>
    intro pd
    obtain ⟨h1, h2⟩ := ih (specAppend t pd f)
    obtain ⟨h3, h4⟩ := mem_keys_specAppend t pd f x
    have hn := numericNames_append [f] rest
    have hs := stringNames_append [f] rest
    simp only [List.singleton_append] at hn hs
    simp only [List.foldl_cons]
    rw [h1, h2, h3, h4, hn, hs]
    simp only [List.mem_append]
    exact ⟨or_assoc, or_assoc⟩

theorem mem_keys_specScan (introspect : Introspect) (channels : List String) (types : TypeDb)
    (x : String) :
    ∀ (evts : List LogEvent) (pd : PlotDataMapRef),
      (x ∈ keys (specScan introspect channels types evts pd).numeric ↔
          x ∈ keys pd.numeric ∨
            x ∈ numericNames (selectedFields introspect channels types evts)) ∧
        (x ∈ keys (specScan introspect channels types evts pd).strings ↔
          x ∈ keys pd.strings ∨
            x ∈ stringNames (selectedFields introspect channels types evts)) := by
  intro evts
  induction evts with
  | nil => intro pd; simp [specScan, selectedFields, numericNames, stringNames]
  | cons e rest ih =>
    intro pd
    obtain ⟨h1, h2⟩ := ih (specRecord introspect channels types pd e)
    simp only [specScan, List.foldl_cons] at h1 h2 ⊢
    rw [h1, h2]
    simp only [selectedFields, numericNames_append, stringNames_append, List.mem_append]
    by_cases hc : e.channel ∈ channels
    · obtain ⟨h3, h4⟩ := mem_keys_foldl_specAppend ((e.timestamp : ℚ) / 10 ^ 6) x
        (introspect e.channel e.data "/" types) pd
      have hr : specRecord introspect channels types pd e =
          (introspect e.channel e.data "/" types).foldl
            (specAppend ((e.timestamp : ℚ) / 10 ^ 6)) pd := by
        unfold specRecord
        rw [if_pos hc]
      rw [hr, h3, h4, if_pos hc]
      exact ⟨or_assoc, or_assoc⟩
    · have hr : specRecord introspect channels types pd e = pd := by
        unfold specRecord
        rw [if_neg hc]
      have hn : numericNames [] = [] := rfl
      have hs : stringNames [] = [] := rfl
      rw [hr, if_neg hc, hn, hs]
      simp

/-- C4, as amended.  The code keeps no kind per name.  After a scan by
`readDataFromFile`, a name is a key of the numeric map exactly when it was one
before or a field of numeric kind with this name was reported for a selected
record handed to `processEvent`, and a key of the string map exactly when it
was one before or a field of string kind with this name was reported for such
a record; a name that arrives with both kinds becomes a key of both maps. -/
theorem readDataFromFile_keys_follow_reported_kinds (w : World) (info : FileLoadInfo)
    (last : Nat) (pd : PlotDataMapRef) (passed : List LogEvent) (channels : List String)
    (hscan : (readDataFromFile w info last pd).scan.map ScanState.passed = some passed)
    (hch : (readDataFromFile w info last pd).channels = some channels) (x : String) :
    (x ∈ keys (readDataFromFile w info last pd).plot_data.numeric ↔
        x ∈ keys pd.numeric ∨
          x ∈ numericNames (selectedFields w.introspect channels w.types passed)) ∧
      (x ∈ keys (readDataFromFile w info last pd).plot_data.strings ↔
        x ∈ keys pd.strings ∨
          x ∈ stringNames (selectedFields w.introspect channels w.types passed)) := by
  cases hrun : (readDataFromFile w info last pd).scan with
  | none => simp [hrun] at hscan
  | some run =>
    rw [hrun] at hscan
    simp only [Option.map_some', Option.some.injEq] at hscan
    obtain ⟨log, channels', b, _, hch', _, hpd, hrun'⟩ :=
      readDataFromFile_scan w info last pd run hrun
    rw [hch, Option.some.injEq] at hch'
    subst hch'
    obtain ⟨hu, _⟩ := scan_user w.introspect channels w.types w.scanProgress log b pd
    rw [← hrun', hscan] at hu
    rw [hpd, hu]
    exact mem_keys_specScan w.introspect channels w.types x passed pd

/-- C4, witness of the amended claim: in `kindWorld` the name `x` arrives first
as a number and then as a string and is a key of both maps. -/
theorem readDataFromFile_keys_follow_reported_kinds_witness :
    (readDataFromFile kindWorld imuInfo 0 emptySink).scan.map ScanState.passed =
        some (events kindLog.frames) ∧
      (readDataFromFile kindWorld imuInfo 0 emptySink).channels = some ["A"] ∧
      "x" ∈ keys (readDataFromFile kindWorld imuInfo 0 emptySink).plot_data.numeric ∧
      "x" ∈ keys (readDataFromFile kindWorld imuInfo 0 emptySink).plot_data.strings :=
  ⟨by decide, by decide,
    (readDataFromFile_keys_follow_reported_kinds kindWorld imuInfo 0 emptySink
      (events kindLog.frames) ["A"] (by decide) (by decide) "x").1.mpr (Or.inr (by decide)),
    (readDataFromFile_keys_follow_reported_kinds kindWorld imuInfo 0 emptySink
      (events kindLog.frames) ["A"] (by decide) (by decide) "x").2.mpr (Or.inr (by decide))⟩

/-- C4, counterexample to the claim as stated: scanning `kindLog` into an empty
sink, the number `x = 1` of the first record and the string `x = "a"` of the
second record are both ingested, and `x` is a key of both maps. -/
theorem readDataFromFile_name_in_both_maps :
    (readDataFromFile kindWorld imuInfo 0 emptySink).plot_data =
        { numeric := [("x", [(1, 1)])], strings := [("x", [(2, "a")])] } ∧
      ¬ (∀ x, ¬ (x ∈ keys (readDataFromFile kindWorld imuInfo 0 emptySink).plot_data.numeric ∧
        x ∈ keys (readDataFromFile kindWorld imuInfo 0 emptySink).plot_data.strings)) := by
  have hyp : (readDataFromFile kindWorld imuInfo 0 emptySink).scan.map
      ScanState.interrupted = some false := by decide
  obtain ⟨log, channels, hopen, hch, _, hpd⟩ :=
    readDataFromFile_eq_specScan kindWorld imuInfo 0 emptySink hyp
  have hlog : log = kindLog := by
    simp only [kindWorld, Option.some.injEq] at hopen
    exact hopen.symm
  have hsel : (readDataFromFile kindWorld imuInfo 0 emptySink).channels = some ["A"] := by
    decide
  rw [hsel, Option.some.injEq] at hch
  have hsink : (readDataFromFile kindWorld imuInfo 0 emptySink).plot_data =
      { numeric := [("x", [(1, 1)])], strings := [("x", [(2, "a")])] } := by
    rw [hpd, hlog, ← hch]
    norm_num [specScan, specRecord, specAppend, specValue, events, kindLog, kindWorld,
      imuWorld, emptySink, ingest, hasSeries, keys, addSeries, pushBack]
  refine ⟨hsink, ?_⟩
  intro hall
  apply hall "x"
  rw [hsink]
  simp [keys]

/-! ## Two scans in a row -/

/-- A run of the loop from the start of the file depends on the start value of
`lastPrintPercent` only through whether it is 0. -/
theorem processLog_start_congr {σ : Type} (dlg : ProgressDialog) (logSize : Nat)
    (processEvent : LogEvent → σ → σ) (frames : List Frame) (user : σ) (b b' : Nat)
    (h : b = 0 ↔ b' = 0) :
    processLog dlg logSize processEvent frames 0 (initState b user) =
      processLog dlg logSize processEvent frames 0 (initState b' user) := by
  by_cases hb : b = 0
  · have hb' : b' = 0 := h.mp hb
    rw [hb, hb']
  · have hb' : ¬ b' = 0 := fun h' => hb (h.mpr h')
    have hstep : progressStep dlg logSize 0 (initState b user) =
        progressStep dlg logSize 0 (initState b' user) := by
      have h0 : ¬ 0 = b := fun h' => hb h'.symm
      have h0' : ¬ 0 = b' := fun h' => hb' h'.symm
      simp [progressStep, percentOf_zero, initState, h0, h0']
    cases frames with
    | nil => simp only [processLog, hstep]
    | cons f rest => simp only [processLog, hstep]

theorem progressStep_interrupted {σ : Type} (dlg : ProgressDialog)
    (logSize offset : Nat) (st : ScanState σ) (hst : st.interrupted = false)
    (h : (progressStep dlg logSize offset st).interrupted = true) :
    percentOf logSize offset ≠ st.lastPrintPercent := by
  intro heq
  unfold progressStep at h
  simp only [heq, ne_eq, not_true_eq_false, if_false] at h
  rw [hst] at h
  exact absurd h (by decide)

/-- Once `lastPrintPercent` is at most the current percent, the static is 0 at
the end of the run exactly when the percent at the end of the file is 0. -/
theorem processLog_lastPrintPercent_eq_zero_iff {σ : Type} (dlg : ProgressDialog)
    (logSize : Nat) (processEvent : LogEvent → σ → σ) :
    ∀ (frames : List Frame) (offset : Nat) (st : ScanState σ),
      st.interrupted = false → st.lastPrintPercent ≤ percentOf logSize offset →
      ((processLog dlg logSize processEvent frames offset st).lastPrintPercent = 0 ↔
        percentOf logSize (endOffset offset frames) = 0) := by
  intro frames
  induction frames with
  | nil =>
    intro offset st _ _
    simp [processLog, progressStep_lastPrintPercent, endOffset]
  | cons f rest ih =>
    intro offset st hst hle
    have hend : endOffset offset (f :: rest) = endOffset (offset + f.consumed) rest := by
      simp [endOffset, Nat.add_assoc]
    have hmono : percentOf logSize offset ≤ percentOf logSize (endOffset offset (f :: rest)) :=
      percentOf_mono logSize (by simp [endOffset])
    simp only [processLog]
    by_cases hint : (progressStep dlg logSize offset st).interrupted = true
    · rw [if_pos hint, progressStep_lastPrintPercent]
      have hne := progressStep_interrupted dlg logSize offset st hst hint
      constructor
      · intro h0
        omega
      · intro h0
        omega
    · rw [if_neg hint, hend]
      exact ih (offset + f.consumed) _ (by simpa using hint)
        (by
          simp only [progressStep_lastPrintPercent]
          exact percentOf_mono logSize (Nat.le_add_right _ _))

/-- After a run that handed at least one record over, the static is 0 exactly
when the percent at the end of the file is 0, whatever it was at the start. -/
theorem processInputLog_lastPrintPercent_eq_zero_iff {σ : Type} (log : LogFile)
    (dlg : ProgressDialog) (processEvent : LogEvent → σ → σ) (last : Nat) (user : σ)
    (hp : (processInputLog (some log) dlg processEvent last user).2.passed ≠ []) :
    (processInputLog (some log) dlg processEvent last user).2.lastPrintPercent = 0 ↔
      percentOf log.size (endOffset 0 log.frames) = 0 := by
  simp only [processInputLog] at hp ⊢
  cases hfr : log.frames with
  | nil =>
    rw [hfr] at hp
    simp [processLog, progressStep_passed, initState] at hp
  | cons f rest =>
    rw [hfr] at hp
    simp only [processLog] at hp ⊢
    by_cases hint : (progressStep dlg log.size 0 (initState last user)).interrupted = true
    · rw [if_pos hint] at hp
      simp [progressStep_passed, initState] at hp
    · rw [if_neg hint]
      have hend : endOffset 0 (f :: rest) = endOffset (0 + f.consumed) rest := by
        simp [endOffset]
      rw [hend]
      exact processLog_lastPrintPercent_eq_zero_iff dlg log.size processEvent rest
        (0 + f.consumed) _ (by simpa using hint)
        (by
          simp only [progressStep_lastPrintPercent, percentOf_zero]
          exact Nat.zero_le _)

/-- When `launchDialog` returns true the log could be opened and the pre-scan
handed at least one record over. -/
theorem launchDialog_ok (w : World) (filepath : String) (last : Nat)
    (h : (launchDialog w filepath last).ok = true) :
    ∃ log, w.openLog filepath = some log ∧
      (processInputLog (some log) w.discoveryProgress
        (fun evt channels => insertChannel channels evt.channel) last []).2.passed ≠ [] := by
  cases hopen : w.openLog filepath with
  | none =>
    rw [launchDialog_of_not_open w filepath last hopen] at h
    exact absurd h (by decide)
  | some log =>
    refine ⟨log, rfl, ?_⟩
    intro hpassed
    obtain ⟨k, _, hp, hu, _⟩ := processLog_prefix w.discoveryProgress log.size
      (fun evt channels => insertChannel channels evt.channel) log.frames 0
      (initState last [])
    simp only [processInputLog] at hpassed
    rw [hpassed] at hp
    simp only [initState, List.nil_append] at hp
    rw [← hp] at hu
    simp only [List.foldl_nil] at hu
    change _ = ([] : List String) at hu
    unfold launchDialog at h
    simp only [hopen, processInputLog, ne_eq, not_true_eq_false, if_false, hu] at h
    cases hexec : w.exec [] with
    | none => simp [hexec] at h
    | some picked => simp [hexec] at h

theorem readDataFromFile_channels (w : World) (info : FileLoadInfo) (last : Nat)
    (pd : PlotDataMapRef) :
    (readDataFromFile w info last pd).channels =
      if (selectChannels w info last).ok = true then
        some (selectChannels w info last).channels
      else none := by
  rcases readDataFromFile_cases w info last with h1 | ⟨h1, h2⟩ | ⟨h1, h2, h3⟩ |
    ⟨h1, h2, log, h3⟩
  · rw [readDataFromFile_of_not_ok w info last pd h1, h1]
    simp
  · rw [readDataFromFile_of_not_good w info last pd h1 h2, h1]
    simp
  · rw [readDataFromFile_of_not_open w info last pd h1 h2 h3, h1]
    simp
  · rw [readDataFromFile_of_open w info last pd log h1 h2 h3, h1]
    simp

/-- The static with which the scan of `readDataFromFile` starts is 0 exactly
when the percent at the end of the file is 0, if the selection came from the
dialog. -/
theorem selectChannels_lastPrintPercent (w : World) (info : FileLoadInfo) (last : Nat)
    (log : LogFile) (hc : info.hasChildNodes = false)
    (hopen : w.openLog info.filename = some log)
    (hok : (selectChannels w info last).ok = true) :
    (selectChannels w info last).lastPrintPercent = 0 ↔
      percentOf log.size (endOffset 0 log.frames) = 0 := by
  have hsel : selectChannels w info last = launchDialog w info.filename last := by
    simp [selectChannels, hc]
  rw [hsel] at hok ⊢
  obtain ⟨log', hopen', hp⟩ := launchDialog_ok w info.filename last hok
  rw [hopen, Option.some.injEq] at hopen'
  subst hopen'
  rw [(launchDialog_of_open w info.filename last log hopen).2.2.1]
  exact processInputLog_lastPrintPercent_eq_zero_iff log w.discoveryProgress _ last [] hp

/-- Two calls of `readDataFromFile` on the same input and sink that start from
any two values of the static and arrive at the same selection end with the
same sink and the same return value. -/
theorem readDataFromFile_static_irrelevant (w : World) (info : FileLoadInfo)
    (last last2 : Nat) (pd : PlotDataMapRef)
    (h : (readDataFromFile w info last pd).channels =
      (readDataFromFile w info last2 pd).channels) :
    (readDataFromFile w info last2 pd).plot_data = (readDataFromFile w info last pd).plot_data ∧
      (readDataFromFile w info last2 pd).ok = (readDataFromFile w info last pd).ok := by
  rw [readDataFromFile_channels, readDataFromFile_channels] at h
  rcases readDataFromFile_cases w info last with h1 | ⟨h1, h2⟩ | ⟨h1, h2, h3⟩ |
    ⟨h1, h2, log, h3⟩
  · have k1 : (selectChannels w info last2).ok = false := by
      cases hk : (selectChannels w info last2).ok with
      | false => rfl
      | true => simp [h1, hk] at h
    rw [readDataFromFile_of_not_ok w info last pd h1,
      readDataFromFile_of_not_ok w info last2 pd k1]
    exact ⟨rfl, rfl⟩
  all_goals
    have k1 : (selectChannels w info last2).ok = true := by
      cases hk : (selectChannels w info last2).ok with
      | false => simp [h1, hk] at h
      | true => rfl
    have hch : (selectChannels w info last).channels = (selectChannels w info last2).channels := by
      simpa [h1, k1] using h
  · rw [readDataFromFile_of_not_good w info last pd h1 h2,
      readDataFromFile_of_not_good w info last2 pd k1 h2]
    exact ⟨rfl, rfl⟩
  · rw [readDataFromFile_of_not_open w info last pd h1 h2 h3,
      readDataFromFile_of_not_open w info last2 pd k1 h2 h3]
    exact ⟨rfl, rfl⟩
  · rw [readDataFromFile_of_open w info last pd log h1 h2 h3,
      readDataFromFile_of_open w info last2 pd log k1 h2 h3]
    refine ⟨?_, rfl⟩
    simp only
    rw [← hch]
    cases hc : info.hasChildNodes with
    | true =>
      have e1 := selectChannels_of_hasChildNodes w info last hc
      have e1c : (selectChannels w info last).channels = [] := by rw [e1]
      rw [e1c]
      simp only [processInputLog]
      obtain ⟨k, _, _, hu, _⟩ := processLog_prefix w.scanProgress log.size
        (processEvent w.introspect [] w.types) log.frames 0
        (initState (selectChannels w info last).lastPrintPercent
          { numerics := [], strings := [], plot_data := pd })
      obtain ⟨k', _, _, hu', _⟩ := processLog_prefix w.scanProgress log.size
        (processEvent w.introspect [] w.types) log.frames 0
        (initState (selectChannels w info last2).lastPrintPercent
          { numerics := [], strings := [], plot_data := pd })
      rw [hu, hu', foldl_processEvent_nil_channels, foldl_processEvent_nil_channels]
      rfl
    | false =>
      have z1 := selectChannels_lastPrintPercent w info last log hc h3 h1
      have z2 := selectChannels_lastPrintPercent w info last2 log hc h3 k1
      simp only [processInputLog]
      rw [processLog_start_congr w.scanProgress log.size _ log.frames _
        (selectChannels w info last2).lastPrintPercent
        (selectChannels w info last).lastPrintPercent (z2.trans z1.symm)]

/-- C6. Idempotence.  Two consecutive calls of `readDataFromFile` in the same
process (the second starts with the `lastPrintPercent` the first left), on the
same log, with the same dialogs and cancellation behaviour, each into the same
initial sink: when both arrive at the same channel selection, the second call
ends with the same numeric and string series and the same return value as the
first. -/
theorem readDataFromFile_idempotent (w : World) (info : FileLoadInfo) (last : Nat)
    (pd : PlotDataMapRef)
    (h : (readDataFromFile w info last pd).channels =
      (readDataFromFile w info (readDataFromFile w info last pd).lastPrintPercent pd).channels) :
    (readDataFromFile w info (readDataFromFile w info last pd).lastPrintPercent pd).plot_data =
        (readDataFromFile w info last pd).plot_data ∧
      (readDataFromFile w info (readDataFromFile w info last pd).lastPrintPercent pd).ok =
        (readDataFromFile w info last pd).ok :=
  readDataFromFile_static_irrelevant w info last
    (readDataFromFile w info last pd).lastPrintPercent pd h

/-- C6, witness: the scan is cancelled after the first record; the first call
leaves the static at 50, the second call starts from there, arrives at the same
selection and ends with the same sink. -/
theorem readDataFromFile_idempotent_witness :
    (readDataFromFile cancelledScanWorld imuInfo 0 emptySink).channels =
        (readDataFromFile cancelledScanWorld imuInfo
          (readDataFromFile cancelledScanWorld imuInfo 0 emptySink).lastPrintPercent
          emptySink).channels ∧
      (readDataFromFile cancelledScanWorld imuInfo 0 emptySink).lastPrintPercent = 50 ∧
      (readDataFromFile cancelledScanWorld imuInfo
          (readDataFromFile cancelledScanWorld imuInfo 0 emptySink).lastPrintPercent
          emptySink).plot_data =
        (readDataFromFile cancelledScanWorld imuInfo 0 emptySink).plot_data :=
  ⟨by decide, by decide,
    (readDataFromFile_idempotent cancelledScanWorld imuInfo 0 emptySink (by decide)).1⟩

/-- The scan loop taken alone does see the static: with a cancel that is
pending from the start, a run from 0 makes no poll in iteration 0 and hands
the first record over, a run from 50 polls in iteration 0 and hands nothing
over.  `readDataFromFile` never meets this difference with a selection from
the dialog, because the pre-scan before each scan leaves the static 0 only for
a file whose percent stays 0. -/
theorem processInputLog_start_value_visible_to_pending_cancel :
    (processInputLog (some imuLog) (cancelFrom 0)
        (processEvent imuWorld.introspect ["IMU"] emptyTypes) 0
        { numerics := [], strings := [], plot_data := emptySink }).2.passed.length = 1 ∧
      (processInputLog (some imuLog) (cancelFrom 0)
        (processEvent imuWorld.introspect ["IMU"] emptyTypes) 50
        { numerics := [], strings := [], plot_data := emptySink }).2.passed.length = 0 :=
  ⟨by decide, by decide⟩

/-! ## Flattened names -/

mutual
/-- The traversal reports, for a node, its leaves in depth-first order, each
under its path joined with the separator. -/
theorem flattenNode_eq_leaves (separator : String) :
    ∀ (path : List String) (d : Decoded),
      flattenNode separator path d = (leavesNode d).map (leafField separator path)
  | path, .scalar d => by simp [flattenNode, leavesNode, leafField]
  | path, .nested children => by
    simp only [flattenNode, leavesNode]
    exact flattenFields_eq_leaves separator path children
  | path, .array elems => by
    simp only [flattenNode, leavesNode]
    exact flattenElems_eq_leaves separator path 0 elems
/-- The traversal over the children of a struct reports the leaves below
them. -/
theorem flattenFields_eq_leaves (separator : String) :
    ∀ (path : List String) (children : List (String × Decoded)),
      flattenFields separator path children =
        (leavesFields children).map (leafField separator path)
  | _, [] => by simp [flattenFields, leavesFields]
  | path, (n, c) :: rest => by
    simp only [flattenFields, leavesFields, List.map_append, List.map_map]
    rw [flattenNode_eq_leaves separator (path ++ [n]) c,
      flattenFields_eq_leaves separator path rest]
    congr 1
    apply List.map_congr_left
    intro l _
    simp [leafField]
/-- The traversal over the elements of an array reports the leaves below
them. -/
theorem flattenElems_eq_leaves (separator : String) :
    ∀ (path : List String) (i : Nat) (elems : List Decoded),
      flattenElems separator path i elems =
        (leavesElems i elems).map (leafField separator path)
  | _, _, [] => by simp [flattenElems, leavesElems]
  | path, i, c :: rest => by
    simp only [flattenElems, leavesElems, List.map_append, List.map_map]
    rw [flattenNode_eq_leaves separator (path ++ [toString i]) c,
      flattenElems_eq_leaves separator path (i + 1) rest]
    congr 1
    apply List.map_congr_left
    intro l _
    simp [leafField]
end

/-- C9. Type-flattening, with the decoder the specification describes.  For a
selected record whose payload resolves to `{pose: {x: float64, y: float64}}`,
`processEvent` on an empty sink creates exactly the numeric series "pose/x" and
"pose/y", each with the sample of the record, and no series "pose".  In
general the decoder reports every leaf under its path of field names (and
array indices) joined with the separator, and these names are the keys the
record adds to the sink. -/
theorem processEvent_flattens_nested_names (channels : List String) (types : TypeDb)
    (evt : LogEvent) (a b : ℚ) (hsel : evt.channel ∈ channels)
    (hres : types.resolve evt.data = some (poseMessage a b)) :
    (processEvent processEncodedType channels types evt
        { numerics := [], strings := [], plot_data := emptySink }).plot_data =
      { numeric := [("pose/x", [(seconds evt, a)]), ("pose/y", [(seconds evt, b)])],
        strings := [] } ∧
    "pose" ∉ keys (processEvent processEncodedType channels types evt
        { numerics := [], strings := [], plot_data := emptySink }).plot_data.numeric ∧
    "pose" ∉ keys (processEvent processEncodedType channels types evt
        { numerics := [], strings := [], plot_data := emptySink }).plot_data.strings ∧
    (∀ (channel separator : String) (db : TypeDb) (data : List Nat)
        (fields : List (String × Decoded)),
      db.resolve data = some fields →
      processEncodedType channel data separator db =
        (leavesFields fields).map (leafField separator [])) ∧
    (∀ (db : TypeDb) (e : LogEvent) (fields : List (String × Decoded))
        (sink : PlotDataMapRef) (x : String),
      e.channel ∈ channels → db.resolve e.data = some fields →
      (x ∈ keys (processEvent processEncodedType channels db e
            { numerics := [], strings := [], plot_data := sink }).plot_data.numeric ↔
          x ∈ keys sink.numeric ∨
            x ∈ numericNames ((leavesFields fields).map (leafField "/" []))) ∧
        (x ∈ keys (processEvent processEncodedType channels db e
            { numerics := [], strings := [], plot_data := sink }).plot_data.strings ↔
          x ∈ keys sink.strings ∨
            x ∈ stringNames ((leavesFields fields).map (leafField "/" [])))) := by
  have hgen : ∀ (channel separator : String) (db : TypeDb) (data : List Nat)
      (fields : List (String × Decoded)),
      db.resolve data = some fields →
      processEncodedType channel data separator db =
        (leavesFields fields).map (leafField separator []) := by
    intro channel separator db data fields hdb
    simp only [processEncodedType, hdb]
    exact flattenFields_eq_leaves separator [] fields
  have hsink : (processEvent processEncodedType channels types evt
        { numerics := [], strings := [], plot_data := emptySink }).plot_data =
      { numeric := [("pose/x", [(seconds evt, a)]), ("pose/y", [(seconds evt, b)])],
        strings := [] } := by
    rw [processEvent_eq_specRecord]
    simp only [specRecord, if_pos hsel, hgen _ _ _ _ _ hres, ← seconds_eq]
    have hx : String.intercalate "/" ["pose", "x"] = "pose/x" := by decide
    have hy : String.intercalate "/" ["pose", "y"] = "pose/y" := by decide
    have hne : ¬ ("pose/y" = "pose/x") := by decide
    have hne' : ¬ ("pose/x" = "pose/y") := by decide
    simp [poseMessage, leavesFields, leavesNode, leafField, hx, hy, specAppend, specValue,
      emptySink, ingest, hasSeries, keys, addSeries, pushBack, hne, hne']
  refine ⟨hsink, ?_, ?_, hgen, ?_⟩
  · rw [hsink]
    simp only [keys, List.map_cons, List.map_nil]
    decide
  · rw [hsink]
    simp [keys]
  · intro db e fields sink x hch hdb
    rw [processEvent_eq_specRecord]
    simp only [specRecord, if_pos hch, hgen _ _ _ _ _ hdb]
    exact mem_keys_foldl_specAppend _ x _ sink

/-- C9, witness: the record `poseEvent` on channel "A", resolved by `poseTypes`
to the pose message with the values 3 and 4. -/
theorem processEvent_flattens_nested_names_witness :
    poseEvent.channel ∈ ["A"] ∧
      poseTypes.resolve poseEvent.data = some (poseMessage 3 4) ∧
      (processEvent processEncodedType ["A"] poseTypes poseEvent
          { numerics := [], strings := [], plot_data := emptySink }).plot_data =
        { numeric := [("pose/x", [(seconds poseEvent, 3)]), ("pose/y", [(seconds poseEvent, 4)])],
          strings := [] } :=
  ⟨by decide, rfl,
    (processEvent_flattens_nested_names ["A"] poseTypes poseEvent 3 4 (by decide) rfl).1⟩

end DataLoadZcm
